import Mathlib

/-!
# onplugd: rule matching, dispatch, registry updates and the device record store

A shallow embedding of the Go packages `action`, `actionregistry`,
`actionregistryupdater`, `device`, `deviceevent`, `devicemonitor`, `engine`,
`executor` and `utils`.

Conventions of the embedding.

* A Go `string` is a Lean `String` (valid UTF-8 text); the few functions of the
  Go standard library the code calls (`strings.ToLower`, `strings.TrimSpace`,
  `strings.SplitN`, `path.Base`, `hex.DecodeString`, ...) are written out on the
  characters. The output of a child process is a list of bytes.
* A Go `map[string]V` is an `AList`: an association list without duplicate keys.
  Go iterates a map in an unspecified order; the order of `entries` stands for
  one such order, and no theorem below depends on it.
* Effects (commands handed to the executor, callbacks invoked, calls made on
  components, errors sent to the message pipe, the messages of a `pipeWriter`)
  are returned as values. The other `Info` and `Debug` log lines are not part of
  the model.
* Pointers to devices are replaced by values: the record store holds the
  device itself, and a device mutated through a pointer that the store also
  holds is written back to the store.
* A `uint16` is a natural number, with the arithmetic taken modulo `2^16`.
-/

/-- A Go map with string keys: an association list without duplicate keys. -/
abbrev GoMap (V : Type) := AList (fun _ : String => V)

/-- The case mappings of Go's `unicode` package for runes above U+007F
(`unicode.ToLower`, `unicode.ToUpper`). The tables are not part of the
repository; everything below is parametric in them. -/
structure CaseTables where
  ToLower : Char → Char
  ToUpper : Char → Char

namespace strings

/-- Go `unicode.IsSpace`: the Latin-1 white space characters and the
`White_Space` code points above Latin-1. -/
def isSpace (c : Char) : Bool :=
  c = '\t' || c = '\n' || c.toNat = 0x0B || c.toNat = 0x0C || c = '\r' || c = ' '
    || c.toNat = 0x85 || c.toNat = 0xA0 || c.toNat = 0x1680
    || (0x2000 ≤ c.toNat && c.toNat ≤ 0x200A)
    || c.toNat = 0x2028 || c.toNat = 0x2029 || c.toNat = 0x202F
    || c.toNat = 0x205F || c.toNat = 0x3000

/-- Go `strings.TrimSpace`: drop leading and trailing white space. -/
def TrimSpace (s : String) : String :=
  ⟨((s.data.dropWhile isSpace).reverse.dropWhile isSpace).reverse⟩

/-- Go `unicode.ToLower` on one rune: ASCII letters by arithmetic, other ASCII
runes unchanged, runes above ASCII through the case tables. -/
def lowerRune (u : CaseTables) (c : Char) : Char :=
  if c.toNat ≤ 0x7F then
    if 'A' ≤ c ∧ c ≤ 'Z' then Char.ofNat (c.toNat + 32) else c
  else u.ToLower c

/-- Go `unicode.ToUpper` on one rune. -/
def upperRune (u : CaseTables) (c : Char) : Char :=
  if c.toNat ≤ 0x7F then
    if 'a' ≤ c ∧ c ≤ 'z' then Char.ofNat (c.toNat - 32) else c
  else u.ToUpper c

/-- Go `strings.ToLower`. -/
def ToLower (u : CaseTables) (s : String) : String := ⟨s.data.map (lowerRune u)⟩

/-- Go `strings.ToUpper`. -/
def ToUpper (u : CaseTables) (s : String) : String := ⟨s.data.map (upperRune u)⟩

/-- The text before and after the first occurrence of `sep`, if there is one. -/
def cut (sep : Char) : List Char → Option (List Char × List Char)
  | [] => none
  | c :: cs =>
    if c = sep then some ([], cs)
    else (cut sep cs).map (fun p => (c :: p.1, p.2))

/-- Go `strings.SplitN(s, sep, n)` on characters, for a one-character separator
and `n ≥ 0`: at most `n` pieces, the last one the unsplit remainder. -/
def splitNChars (sep : Char) : Nat → List Char → List (List Char)
  | 0, _ => []
  | 1, s => [s]
  | n + 2, s =>
    match cut sep s with
    | none => [s]
    | some (a, rest) => a :: splitNChars sep (n + 1) rest

/-- Go `strings.SplitN(s, sep, n)` for a one-character separator. -/
def SplitN (s : String) (sep : Char) (n : Nat) : List String :=
  (splitNChars sep n s.data).map String.mk

/-- Go `strings.Split(s, sep)` on characters, for a one-character separator. -/
def splitChars (sep : Char) : List Char → List (List Char)
  | [] => [[]]
  | c :: cs =>
    if c = sep then [] :: splitChars sep cs
    else
      match splitChars sep cs with
      | [] => [[c]]
      | p :: ps => (c :: p) :: ps

/-- Go `strings.Split(s, sep)` for a one-character separator. -/
def Split (s : String) (sep : Char) : List String :=
  (splitChars sep s.data).map String.mk

end strings

namespace path

/-- Drop the trailing slashes of a path (given reversed). -/
def dropSlashes (r : List Char) : List Char := r.dropWhile (· = '/')

/-- Go `path.Base`: the last element of the path; `.` for the empty path and
`/` for a path of slashes only. -/
def Base (p : String) : String :=
  if p = "" then "."
  else
    let stripped := dropSlashes p.data.reverse
    let last := (stripped.takeWhile (· ≠ '/')).reverse
    if last = [] then "/" else ⟨last⟩

end path

namespace device

/-- Go `device.Device`. -/
structure Device where
  path : String
  subsystem : String
  typ : String
  driver : String
  attrs : GoMap String
  uevent : GoMap String

/-- Go `device.New`. -/
def New (path : String) : Device :=
  { path := path, subsystem := "", typ := "", driver := "", attrs := ∅, uevent := ∅ }

end device

namespace deviceevent

/-- Go `deviceevent.Event`, a string type. -/
abbrev Event := String

/-- The device was added. -/
def Add : Event := "ADD"
/-- The device was removed. -/
def Remove : Event := "REMOVE"
/-- The device was bound. -/
def Bind : Event := "BIND"
/-- The device was unbound. -/
def Unbind : Event := "UNBIND"
/-- The device changed. -/
def Change : Event := "CHANGE"
/-- The device moved. -/
def Move : Event := "MOVE"
/-- The device was there when the daemon started. -/
def Coldplug : Event := "COLDPLUG"
/-- An unrecognized udev action. -/
def Unknown : Event := "?unknown event?"

/-- Go `deviceevent.DeviceEvent`. -/
structure DeviceEvent where
  device : device.Device
  event : Event

/-- Go `deviceevent.New`. -/
def New (event : Event) (dev : device.Device) : DeviceEvent :=
  { event := event, device := dev }

end deviceevent

namespace executor

/-- One call `Exec(cmdline, env, prefix)` received by the executor. -/
structure ExecCall where
  cmdline : String
  env : List String
  pfx : String
deriving DecidableEq

end executor

namespace action

open strings deviceevent

/-- Go `action.Action`: a rule parsed from one configuration file. -/
structure Action where
  name : String
  events : List String
  paths : List String
  subsystems : List String
  types : List String
  drivers : List String
  attrs : GoMap (List String)
  uevents : GoMap (List String)
  execs : List String

/-- Go `action.match` (`match` is a keyword of Lean). -/
def match_ (u : CaseTables) (s1 s2 : String) : Bool :=
  decide (s1.utf8ByteSize > 0) && decide (ToLower u s1 = ToLower u s2)

/-- Go `action.foundIn`. -/
def foundIn (u : CaseTables) (needle : String) (haystack : List String) : Bool :=
  if haystack.length = 0 then true
  else haystack.any (fun hay => match_ u needle hay)

/-- The loops of `Match` over the rule's `attrs` and `uevents`: false at the
first entry whose key the device lacks or whose value is not among the
candidates; true when the entries are exhausted. -/
def matchEntries (u : CaseTables) (dev : GoMap String) :
    List (Sigma (fun _ : String => List String)) → Bool
  | [] => true
  | ⟨attr, values⟩ :: rest =>
    match dev.lookup attr with
    | none => false
    | some deviceAttrValue =>
      if !foundIn u deviceAttrValue values then false
      else matchEntries u dev rest

/-- Go `Action.Match`. -/
def Action.Match (u : CaseTables) (a : Action) (event : DeviceEvent) : Bool :=
  if !foundIn u event.event a.events then false
  else if !foundIn u event.device.path a.paths then false
  else if !foundIn u event.device.subsystem a.subsystems then false
  else if !foundIn u event.device.typ a.types then false
  else if !foundIn u event.device.driver a.drivers then false
  else if !matchEntries u event.device.attrs a.attrs.entries then false
  else if !matchEntries u event.device.uevent a.uevents.entries then false
  else true

/-- The environment entries that `Do` appends for a map of the device, one
entry per key: `label` followed by the upper-cased key, `=` and the value. -/
def appendEntries (u : CaseTables) (label : String) (env : List String)
    (m : GoMap String) : List String :=
  m.entries.foldl (fun env kv => env ++ [label ++ ToUpper u kv.1 ++ "=" ++ kv.2]) env

/-- The environment that `Do` builds: the process environment `environ`
(Go `os.Environ()`) followed by the injected `ONPLUGD_` entries. -/
def Action.doEnv (u : CaseTables) (environ : List String) (event : DeviceEvent) :
    List String :=
  let env := environ
  let env := env ++ ["ONPLUGD_EVENT=" ++ ToUpper u event.event]
  let env := env ++ ["ONPLUGD_PATH=" ++ event.device.path]
  let env := env ++ ["ONPLUGD_SUBSYSTEM=" ++ event.device.subsystem]
  let env := if event.device.driver ≠ "" then
      env ++ ["ONPLUGD_DRIVER=" ++ event.device.driver] else env
  let env := if event.device.typ ≠ "" then
      env ++ ["ONPLUGD_TYPE=" ++ event.device.typ] else env
  let env := appendEntries u "ONPLUGD_ATTR_" env event.device.attrs
  let env := appendEntries u "ONPLUGD_UEVENT_" env event.device.uevent
  env

/-- Go `Action.Do`: the calls made to the executor, in order. The Go function
always returns a nil error. -/
def Action.Do (u : CaseTables) (environ : List String) (a : Action)
    (event : DeviceEvent) : List executor.ExecCall :=
  let env := Action.doEnv u environ event
  a.execs.map (fun cmdline => { cmdline := cmdline, env := env, pfx := a.name })

/-- Go `action.loadSliceFromShadow`. -/
def loadSliceFromShadow (shadow : List String) : List String :=
  shadow.filter (fun item => item ≠ "")

/-- Go `action.loadMapFromShadow`: the map after the loop and the error
returned (`none` for nil). On an error the loop stops at the offending entry. -/
def loadMapFromShadow (m : GoMap (List String)) :
    List String → GoMap (List String) × Option String
  | [] => (m, none)
  | entry :: rest =>
    if entry = "" then loadMapFromShadow m rest
    else
      match SplitN entry '=' 2 with
      | [key, value] =>
        let k := TrimSpace key
        let v := TrimSpace value
        loadMapFromShadow (m.insert k (((m.lookup k).getD []) ++ [v])) rest
      | _ =>
        (m, some ("Invalid attribute: expected something formatted as KEY=VALUE, got \x27"
          ++ entry ++ "\x27"))

/-- What `ini.ShadowLoad` yields for one rule file, as far as the code reads it:
for each key, the list returned by `ValueWithShadows()`. The `ini` library is
not part of the repository. -/
structure IniFile where
  event : List String
  path : List String
  subsystem : List String
  type : List String
  driver : List String
  attr : List String
  uevent : List String
  exec : List String

/-- Go `action.NewActionFromFile`. `ShadowLoad` stands for `ini.ShadowLoad` on
the file system: the parsed file, or the error of reading or parsing it. -/
def NewActionFromFile (ShadowLoad : String → Except String IniFile)
    (fullpath : String) : Except String Action :=
  match ShadowLoad fullpath with
  | .error err => .error err
  | .ok conf =>
    let events := loadSliceFromShadow conf.event
    let events := if events.length = 0 then ["COLDPLUG", "ADD"] else events
    let paths := loadSliceFromShadow conf.path
    let subsystems := loadSliceFromShadow conf.subsystem
    let types := loadSliceFromShadow conf.type
    let drivers := loadSliceFromShadow conf.driver
    match loadMapFromShadow ∅ conf.attr with
    | (_, some err) => .error err
    | (attrs, none) =>
      match loadMapFromShadow ∅ conf.uevent with
      | (_, some err) => .error err
      | (uevents, none) =>
        .ok { name := path.Base fullpath, events := events, paths := paths,
              subsystems := subsystems, types := types, drivers := drivers,
              attrs := attrs, uevents := uevents, execs := conf.exec }

end action

namespace actionregistry

open action deviceevent

/-- Go `actionregistry.ActionRegistry`: the rules by name. The executor, the
lock and the message pipe are not state of the model. -/
structure ActionRegistry where
  actions : GoMap Action

/-- Go `actionregistry.New`. -/
def New : ActionRegistry := { actions := ∅ }

/-- The first loop of `OnDeviceEvent`: the registry entries whose rule matches,
in iteration order (the Go slice `actions` keeps the rules of these entries). -/
def ActionRegistry.matching (u : CaseTables) (ar : ActionRegistry)
    (event : DeviceEvent) : List (Sigma (fun _ : String => Action)) :=
  ar.actions.entries.filter (fun entry => entry.2.Match u event)

/-- Go `ActionRegistry.OnDeviceEvent`: one `Do` per collected rule, each in a
goroutine of its own; the result lists, per goroutine, the calls it makes to
the executor. -/
def ActionRegistry.OnDeviceEvent (u : CaseTables) (environ : List String)
    (ar : ActionRegistry) (event : DeviceEvent) : List (List executor.ExecCall) :=
  let actions := (ar.matching u event).map (fun entry => entry.2)
  actions.map (fun a => a.Do u environ event)

/-- Go `ActionRegistry.Update`. -/
def ActionRegistry.Update (ar : ActionRegistry) (name : String) (a : Action) :
    ActionRegistry :=
  { actions := ar.actions.insert name a }

/-- Go `ActionRegistry.Remove`. -/
def ActionRegistry.Remove (ar : ActionRegistry) (name : String) : ActionRegistry :=
  { actions := ar.actions.erase name }

end actionregistry

namespace confmonitor

/-- Go `confmonitor.FileEventType`. -/
inductive FileEventType where
  | FileCreate
  | FileChange
  | FileDelete
deriving DecidableEq

/-- Go `confmonitor.FileEvent`. -/
structure FileEvent where
  Event : FileEventType
  Name : String

end confmonitor

namespace actionregistryupdater

open action actionregistry confmonitor

/-- One iteration of the loop of `ActionRegistryUpdater.Start` for an event
received from the monitor: the registry afterwards and the error sent to the
message pipe, if any. -/
def onFileEvent (ShadowLoad : String → Except String IniFile)
    (registry : ActionRegistry) (event : FileEvent) : ActionRegistry × Option String :=
  let name := path.Base event.Name
  if event.Event = FileEventType.FileDelete then
    (registry.Remove name, none)
  else
    match NewActionFromFile ShadowLoad event.Name with
    | .error err =>
      (registry, some ("Error while reading " ++ event.Name ++ ": " ++ err))
    | .ok a => (registry.Update name a, none)

end actionregistryupdater

namespace devicemonitor

open strings device deviceevent

/-- Go `devicemonitor.ueventAttr`. -/
def ueventAttr : String := "uevent"

/-- Go `devicemonitor.monitoredSubsystems`. -/
def monitoredSubsystems : List String := ["usb", "input"]

/-- What the code reads of a `*udev.Device` (the udev binding is not part of
the repository): the results of `IsInitialized()`, `Devpath()`, `Subsystem()`,
`Devtype()`, `Driver()`, `Action()`, the keys of `Sysattrs()` and the function
`SysattrValue`. -/
structure UdevDevice where
  IsInitialized : Bool
  Devpath : String
  Subsystem : String
  Devtype : String
  Driver : String
  Action : String
  Sysattrs : List String
  SysattrValue : String → String

/-- What `processEvent` does to the outside, in order. -/
inductive Effect where
  /-- An error sent to the message pipe. -/
  | pipeError (msg : String)
  /-- The callback registered at position `index` is called with `event`. -/
  | callback (index : Nat) (event : DeviceEvent)

/-- Go `devicemonitor.UdevDeviceMonitor`: the registered callbacks (each returns
an error message or nil) and the record store. -/
structure UdevDeviceMonitor where
  callbacks : List (DeviceEvent → Option String)
  records : GoMap Device

/-- Go `devicemonitor.New`, followed by the reset of the record store that
`Start` does before any event is processed. -/
def New : UdevDeviceMonitor := { callbacks := [], records := ∅ }

/-- Go `UdevDeviceMonitor.AddCallback`. -/
def UdevDeviceMonitor.AddCallback (m : UdevDeviceMonitor)
    (f : DeviceEvent → Option String) : UdevDeviceMonitor :=
  { m with callbacks := m.callbacks ++ [f] }

/-- Go `UdevDeviceMonitor.actionToEvent`: the event and the error sent to the
message pipe for an action outside the table. -/
def actionToEvent (action : String) : Event × Option String :=
  if action = "add" then (Add, none)
  else if action = "remove" then (Remove, none)
  else if action = "bind" then (Bind, none)
  else if action = "unbind" then (Unbind, none)
  else if action = "change" then (Change, none)
  else if action = "move" then (Move, none)
  else (Unknown, some ("Unknown event type: \x27" ++ action ++ "\x27"))

/-- Go `devicemonitor.checkSubsystem`: the error, or `none` for nil. -/
def checkSubsystem (dev : UdevDevice) : Option String :=
  if monitoredSubsystems.any (fun expectedSubsystem => dev.Subsystem = expectedSubsystem)
  then none
  else some ("Unexpected subsystem. Expected one of [usb input]; got: " ++ dev.Subsystem)

/-- Go `devicemonitor.attrsFromUdevDevice`. -/
def attrsFromUdevDevice (dev : UdevDevice) : GoMap String :=
  dev.Sysattrs.foldl (fun attrs k => attrs.insert k (dev.SysattrValue k)) ∅

/-- The loop of `ueventFromAttrs` over the lines of the payload. -/
def ueventLines : GoMap String → List String → GoMap String
  | uevents, [] => uevents
  | uevents, line :: rest =>
    let line := TrimSpace line
    if line = "" then ueventLines uevents rest
    else
      match SplitN line '=' 2 with
      | key :: value :: _ =>
        ueventLines (uevents.insert (TrimSpace key) (TrimSpace value)) rest
      | _ => ueventLines uevents rest

/-- Go `devicemonitor.ueventFromAttrs`: the attribute map as the function
leaves it (Go deletes the key in place) and the mapping it returns. -/
def ueventFromAttrs (attrs : GoMap String) : GoMap String × GoMap String :=
  match attrs.lookup ueventAttr with
  | none => (attrs, ∅)
  | some u => (attrs.erase ueventAttr, ueventLines ∅ (Split u '\n'))

/-- The loops `for k, v := range src { dst[k] = v }` of `processEvent`. -/
def mergeInto (dst src : GoMap String) : GoMap String :=
  src.entries.foldl (fun acc kv => acc.insert kv.1 kv.2) dst

/-- The calls of the callbacks, in registration order, each followed by the
error it returned, if any; `index` is the position of the first callback. -/
def runCallbacks (e : DeviceEvent) :
    Nat → List (DeviceEvent → Option String) → List Effect
  | _, [] => []
  | index, callback :: rest =>
    (Effect.callback index e ::
      (match callback e with
       | some err => [Effect.pipeError err]
       | none => []))
    ++ runCallbacks e (index + 1) rest

/-- The device that `processEvent` emits: the record found under the devpath,
or a new device, refreshed from the udev view. -/
def refreshed (records : GoMap Device) (dev : UdevDevice) : Device :=
  let d := (records.lookup dev.Devpath).getD (device.New dev.Devpath)
  let split := ueventFromAttrs (attrsFromUdevDevice dev)
  { d with
    subsystem := dev.Subsystem
    typ := dev.Devtype
    driver := dev.Driver
    attrs := mergeInto d.attrs split.1
    uevent := mergeInto d.uevent split.2 }

/-- Go `UdevDeviceMonitor.processEvent`: the record store afterwards and the
effects. The store holds pointers in Go: the device `d` is the record under
`path` exactly when that key is bound after the insertion and deletion steps,
and then the refreshed device is what the store holds. -/
def UdevDeviceMonitor.processEvent (m : UdevDeviceMonitor) (event : Event)
    (dev : UdevDevice) : GoMap Device × List Effect :=
  if event = Unknown then (m.records, [])
  else if !dev.IsInitialized then (m.records, [])
  else
    match checkSubsystem dev with
    | some err => (m.records, [Effect.pipeError err])
    | none =>
      let path := dev.Devpath
      let found := (m.records.lookup path).isSome
      let d := (m.records.lookup path).getD (device.New path)
      let records :=
        if !found ∧ event ≠ Unbind ∧ event ≠ Remove then m.records.insert path d
        else m.records
      let records := if event = Remove then records.erase d.path else records
      let d := refreshed m.records dev
      let records := if (records.lookup path).isSome then records.insert path d else records
      let e := deviceevent.New event d
      (records, runCallbacks e 0 m.callbacks)

/-- The monitor after `processEvent`. -/
def UdevDeviceMonitor.step (m : UdevDeviceMonitor) (ev : Event × UdevDevice) :
    UdevDeviceMonitor :=
  { m with records := (m.processEvent ev.1 ev.2).1 }

/-- The events processed one after the other: the monitor at the end. -/
def UdevDeviceMonitor.run (m : UdevDeviceMonitor) (evs : List (Event × UdevDevice)) :
    UdevDeviceMonitor :=
  evs.foldl UdevDeviceMonitor.step m

/-- The effects of processing the events one after the other. -/
def UdevDeviceMonitor.trace : UdevDeviceMonitor → List (Event × UdevDevice) → List Effect
  | _, [] => []
  | m, ev :: rest => (m.processEvent ev.1 ev.2).2 ++ UdevDeviceMonitor.trace (m.step ev) rest

end devicemonitor

/-! ## Concrete inputs used by the examples -/

namespace action

/-- A rule file with an empty `[match]` section and one command, as the `ini`
library hands it over: one empty shadow value per key. -/
def emptyMatchFile : IniFile :=
  { event := [""], path := [""], subsystem := [""], type := [""], driver := [""],
    attr := [""], uevent := [""], exec := ["/bin/echo hi"] }

end action

namespace action

/-- Whether an environment entry sets the variable `name`: it starts with the
name followed by `=`. -/
def setsVariable (name entry : String) : Bool :=
  (name ++ "=").data.isPrefixOf entry.data

end action

namespace action

/-- A rule with one command and no candidate, named after its file. -/
def echoRule : Action :=
  { name := "m.conf", events := ["COLDPLUG", "ADD"], paths := [], subsystems := [],
    types := [], drivers := [], attrs := ∅, uevents := ∅, execs := ["/bin/echo hi"] }

/-- A USB mouse with one attribute and one uevent key, no type and a driver. -/
def mouse : device.Device :=
  { path := "/devices/usb1/1-1", subsystem := "usb", typ := "", driver := "usbhid",
    attrs := AList.insert "idVendor" "046d" ∅,
    uevent := AList.insert "PRODUCT" "46d/c52b/2400" ∅ }

end action

namespace devicemonitor

open device deviceevent

/-- The callback invocation recorded by an effect, if it is one. -/
def Effect.call? : Effect → Option (Nat × DeviceEvent)
  | Effect.callback index event => some (index, event)
  | Effect.pipeError _ => none

/-- Every record of the store is filed under its own devpath. `processEvent`
only ever files a device created by `device.New(path)` under `path`, so every
store the monitor builds from the empty one is of this kind. -/
def WellKeyed (records : GoMap Device) : Prop :=
  ∀ p d, records.lookup p = some d → d.path = p

/-- The events the device monitor does not drop: the kind is known, the device
is initialized and its subsystem is monitored. -/
def Accepted (ev : Event × UdevDevice) : Prop :=
  ev.1 ≠ Unknown ∧ ev.2.IsInitialized = true ∧ checkSubsystem ev.2 = none

/-- A udev view of an initialized USB device with the given devpath and
attributes, every attribute with the given value. -/
def usbDevice (devpath : String) (attrs : List String) (value : String) : UdevDevice :=
  { IsInitialized := true, Devpath := devpath, Subsystem := "usb", Devtype := "usb_device",
    Driver := "usb", Action := "", Sysattrs := attrs, SysattrValue := fun _ => value }

end devicemonitor

namespace devicemonitor

open device

/-- No record of the store has the raw attribute `uevent` among its `attrs`. -/
def NoRawUevent (records : GoMap Device) : Prop :=
  ∀ p d, records.lookup p = some d → d.attrs.lookup ueventAttr = none

end devicemonitor

namespace devicemonitor

open deviceevent

/-- The branch `case device := <-devices` of the loop of `Start`: the action of
the device is translated and the event processed. The effects start with the
error `actionToEvent` sends to the message pipe, if any. -/
def UdevDeviceMonitor.onDevice (m : UdevDeviceMonitor) (dev : UdevDevice) :
    GoMap device.Device × List Effect :=
  let translated := actionToEvent dev.Action
  let processed := m.processEvent translated.1 dev
  (processed.1,
    (match translated.2 with
     | some err => [Effect.pipeError err]
     | none => []) ++ processed.2)

end devicemonitor

namespace engine

/-- A call the engine makes on one of its components or cleanup callbacks. -/
inductive Call where
  | deviceMonitorStart
  | deviceMonitorStop
  | confMonitorStart
  | confMonitorStop
  | actionRegistryUpdaterStart
  | actionRegistryUpdaterStop
  /-- The cleanup callback registered at position `index`. -/
  | cleanup (index : Nat)
deriving DecidableEq

/-- What the components behind the interfaces answer when the engine starts
them: the error returned by `ActionRegistryUpdater.Start`, `IConfMonitor.Start`
and `IDeviceMonitor.Start` (`none` for nil). -/
structure StartResults where
  actionRegistryUpdater : Option String
  confMonitor : Option String
  deviceMonitor : Option String

/-- Go `engine.Engine`: the `started` flag and the number of registered cleanup
callbacks; the components are behind interfaces and appear through the calls
made on them. -/
structure Engine where
  started : Bool
  cleanups : Nat

/-- Go `Engine.AddCleanupCallback`. -/
def Engine.AddCleanupCallback (e : Engine) : Engine :=
  { e with cleanups := e.cleanups + 1 }

/-- Go `Engine.Stop`: the engine afterwards, the calls made, the error returned
(always nil). -/
def Engine.Stop (e : Engine) : Engine × List Call × Option String :=
  if e.started then
    ({ e with started := false },
      [Call.deviceMonitorStop, Call.confMonitorStop, Call.actionRegistryUpdaterStop]
        ++ (List.range e.cleanups).map Call.cleanup,
      none)
  else (e, [], none)

/-- Go `Engine.Start`: the engine afterwards, the calls made, the error
returned. The three `Start` calls are statements whose results the code does
not bind: `results` is not read. -/
def Engine.Start (e : Engine) (results : StartResults) :
    Engine × List Call × Option String :=
  let stopped := e.Stop
  let _ := results.actionRegistryUpdater
  let _ := results.confMonitor
  let _ := results.deviceMonitor
  ({ stopped.1 with started := true },
    stopped.2.1 ++ [Call.actionRegistryUpdaterStart, Call.confMonitorStart,
      Call.deviceMonitorStart],
    none)

end engine

namespace action

/-- A rule file with `subsystem = usb` and one command, as the `ini` library
hands it over when shadow loading adds an empty value to every key, the `exec`
key included. -/
def shadowedExecFile : IniFile :=
  { event := [""], path := [""], subsystem := ["", "usb"], type := [""], driver := [""],
    attr := [""], uevent := [""], exec := ["", "/bin/echo hi"] }

end action

namespace hex

/-- Go `encoding/hex`: the value of a hexadecimal digit (`reverseHexTable`),
`none` for any other character. The code points are those of `0`-`9`
(48-57), `A`-`F` (65-70) and `a`-`f` (97-102). -/
def fromHexChar (c : Char) : Option Nat :=
  if 48 ≤ c.toNat ∧ c.toNat ≤ 57 then some (c.toNat - 48)
  else if 97 ≤ c.toNat ∧ c.toNat ≤ 102 then some (c.toNat - 97 + 10)
  else if 65 ≤ c.toNat ∧ c.toNat ≤ 70 then some (c.toNat - 65 + 10)
  else none

/-- Go `hex.Decode` on the characters: one byte per pair of hexadecimal digits;
`none` (an error) for a character that is not a hexadecimal digit or an odd
length. A rune above U+007F is encoded in bytes none of which is a hexadecimal
digit, so decoding the bytes fails exactly when decoding the characters does. -/
def decodeChars : List Char → Option (List Nat)
  | [] => some []
  | [_] => none
  | p :: q :: rest =>
    match fromHexChar p, fromHexChar q with
    | some a, some b => (decodeChars rest).map (fun bytes => (a * 16 + b) :: bytes)
    | _, _ => none

/-- Go `hex.DecodeString`: the bytes, or `none` for an error. -/
def DecodeString (s : String) : Option (List Nat) := decodeChars s.data

end hex

namespace utils

open strings

/-- The end of `Hex2uint16`: the value returned for the outcome of
`hex.DecodeString` (`none` for an error). The result is a `uint16`: the
arithmetic is taken modulo `2^16`. -/
def fromDecoded : Option (List Nat) → Nat
  | none => 0
  | some [] => 0
  | some [h0] => h0 % 65536
  | some (h0 :: h1 :: _) => ((h0 * 256) % 65536 + h1) % 65536

/-- Go `utils.Hex2uint16`. -/
def Hex2uint16 (s : String) : Nat :=
  let s := TrimSpace s
  let s := if s.utf8ByteSize % 2 = 1 then "0" ++ s else s
  fromDecoded (hex.DecodeString s)

/-- The number that a string of hexadecimal digits denotes, most significant
digit first. -/
def hexValue (digits : List Char) : Nat :=
  digits.foldl (fun acc c => acc * 16 + (hex.fromHexChar c).getD 0) 0

/-- Whether a character is a hexadecimal digit, upper or lower case. -/
def isHexDigit (c : Char) : Bool := (hex.fromHexChar c).isSome

end utils

namespace strings

/-- Go `strings.HasPrefix`. -/
def HasPrefix (s start : String) : Bool := start.data.isPrefixOf s.data

/-- Go `strings.HasSuffix`. -/
def HasSuffix (s ending : String) : Bool := ending.data.isSuffixOf s.data

/-- Go `strings.TrimPrefix`: `s` without the leading `start`, or `s` itself. -/
def TrimPrefix (s start : String) : String :=
  if HasPrefix s start then ⟨s.data.drop start.data.length⟩ else s

/-- Go `strings.TrimSuffix`: `s` without the trailing `ending`, or `s` itself. -/
def TrimSuffix (s ending : String) : String :=
  if HasSuffix s ending then ⟨s.data.take (s.data.length - ending.data.length)⟩ else s

end strings

namespace utils

open strings

/-- Go `utils.getHomeDir`. `HOME` is the value of `os.Getenv("HOME")` (empty
when the variable is not set) and `userCurrent` the outcome of `user.Current()`:
the home directory of the user record, or an error. -/
def getHomeDir (HOME : String) (userCurrent : Except String String) : String :=
  if HOME ≠ "" then HOME
  else
    match userCurrent with
    | .error _ => "path"
    | .ok homeDir => homeDir

/-- Go `utils.Expand`. -/
def Expand (HOME : String) (userCurrent : Except String String) (path : String) : String :=
  let home := TrimSuffix (getHomeDir HOME userCurrent) "/"
  if path = "~" ∨ HasPrefix path "~/" = true then home ++ TrimPrefix path "~"
  else path

end utils

namespace devicemonitor

open strings

/-- The entry that one line of the uevent payload stands for, in the words of
the specification: the trimmed line must contain `=`; the key is the trimmed
text before the first `=`, the value the trimmed text after it. -/
def lineEntry (line : String) : Option (String × String) :=
  match cut '=' (TrimSpace line).data with
  | none => none
  | some (a, b) => some (TrimSpace ⟨a⟩, TrimSpace ⟨b⟩)

end devicemonitor

namespace executor

/-- A sequence of bytes: a Go `[]byte`, or a Go string that need not be valid
UTF-8 (the output of a child process). -/
abbrev Bytes := List UInt8

/-- Go `executor.pipeWriter`. The `Info` messages sent to the message pipe are
returned by the methods. -/
structure pipeWriter where
  pfx : Bytes
  buffer : Bytes

/-- The message `fmt.Sprint(w.prefix, " ", string(w.buffer))`: the three
operands are strings, so `Sprint` puts nothing between them. -/
def pipeWriter.message (w : pipeWriter) : Bytes := w.pfx ++ [0x20] ++ w.buffer

/-- The body of the loop of `Write` for one byte, on the writer and the messages
sent so far. -/
def pipeWriter.writeByte (state : pipeWriter × List Bytes) (b : UInt8) :
    pipeWriter × List Bytes :=
  if b = 0x0A then
    ({ state.1 with buffer := [] }, state.2 ++ [state.1.message])
  else
    ({ state.1 with buffer := state.1.buffer ++ [b] }, state.2)

/-- Go `pipeWriter.Write`: the writer afterwards, the messages sent, and the
values returned (the count and the error, `none` for nil). -/
def pipeWriter.Write (w : pipeWriter) (p : Bytes) :
    pipeWriter × List Bytes × (Nat × Option String) :=
  let state := p.foldl pipeWriter.writeByte (w, [])
  (state.1, state.2, (p.length, none))

/-- Go `pipeWriter.Flush`: the messages sent. -/
def pipeWriter.Flush (w : pipeWriter) : List Bytes :=
  if w.buffer.length > 0 then [w.message] else []

/-- The chunks written one after the other: the writer at the end and the
messages sent, in order. -/
def pipeWriter.writeAll : pipeWriter → List Bytes → pipeWriter × List Bytes
  | w, [] => (w, [])
  | w, p :: rest =>
    let written := w.Write p
    let later := pipeWriter.writeAll written.1 rest
    (later.1, written.2.1 ++ later.2)

/-- The messages of a fresh writer with the given prefix over its life in
`Executor.Exec`: the chunks written by the child process, then one `Flush`. -/
def pipeWriter.session (pfx : Bytes) (chunks : List Bytes) : List Bytes :=
  let written := pipeWriter.writeAll { pfx := pfx, buffer := [] } chunks
  written.2 ++ written.1.Flush

end executor

/-! ## Properties -/

namespace strings

theorem utf8ByteSize_pos_iff (s : String) : s.utf8ByteSize > 0 ↔ s ≠ "" := by
  rcases s with ⟨cs⟩
  cases cs with
  | nil => simp [String.utf8ByteSize, String.utf8ByteSize.go]
  | cons c cs =>
    have hc := Char.utf8Size_pos c
    have hne : (String.mk (c :: cs)) ≠ "" := by
      intro h
      have := congrArg String.data h
      simp at this
    simp only [String.utf8ByteSize, String.utf8ByteSize.go, gt_iff_lt, ne_eq, hne,
      not_false_eq_true, iff_true]
    omega

end strings

namespace action

open strings deviceevent

theorem match_iff (u : CaseTables) (s1 s2 : String) :
    match_ u s1 s2 = true ↔ s1 ≠ "" ∧ ToLower u s1 = ToLower u s2 := by
  simp only [match_, Bool.and_eq_true, decide_eq_true_eq, utf8ByteSize_pos_iff]

theorem foundIn_iff (u : CaseTables) (x : String) (Xs : List String) :
    foundIn u x Xs = true ↔
      Xs = [] ∨ (x ≠ "" ∧ ∃ y ∈ Xs, ToLower u x = ToLower u y) := by
  unfold foundIn
  cases Xs with
  | nil => simp
  | cons y ys =>
    simp only [List.length_cons, Nat.add_one_ne_zero, if_false, List.any_eq_true, match_iff,
      reduceCtorEq, false_or]
    constructor
    · rintro ⟨z, hz, hx, hl⟩
      exact ⟨hx, z, hz, hl⟩
    · rintro ⟨hx, z, hz, hl⟩
      exact ⟨z, hz, hx, hl⟩

theorem matchEntries_iff (u : CaseTables) (dev : GoMap String)
    (l : List (Sigma (fun _ : String => List String))) :
    matchEntries u dev l = true ↔
      ∀ entry ∈ l, ∃ v, dev.lookup entry.1 = some v ∧ foundIn u v entry.2 = true := by
  induction l with
  | nil => simp [matchEntries]
  | cons entry rest ih =>
    rcases entry with ⟨k, Vs⟩
    simp only [matchEntries, List.mem_cons, forall_eq_or_imp]
    cases hk : dev.lookup k with
    | none => simp
    | some v =>
      cases hf : foundIn u v Vs <;> simp [hf, ih]

/-- **C2.** The candidate test: `foundIn x Xs` holds when `Xs` is empty;
for a non-empty `Xs` it holds exactly when `x` is non-empty and equals some
candidate after lower-casing both; the empty string passes no non-empty
candidate list, even one that contains the empty string. -/
theorem foundIn_candidate_test (u : CaseTables) (x : String) (Xs : List String) :
    (Xs = [] → foundIn u x Xs = true) ∧
    (Xs ≠ [] →
      (foundIn u x Xs = true ↔ x ≠ "" ∧ ∃ y ∈ Xs, ToLower u x = ToLower u y)) ∧
    (Xs ≠ [] → foundIn u "" Xs = false) := by
  refine ⟨fun h => (foundIn_iff u x Xs).2 (Or.inl h), fun h => ?_, fun h => ?_⟩
  · rw [foundIn_iff]
    simp [h]
  · cases hf : foundIn u "" Xs with
    | false => rfl
    | true =>
      rw [foundIn_iff] at hf
      rcases hf with hf | ⟨hx, _⟩
      · exact absurd hf h
      · exact absurd rfl hx

/-- **C1.** A rule matches a device event exactly when the event kind and the
device's path, subsystem, type and driver pass the candidate test against the
rule's lists, and every key of the rule's `attrs` (resp. `uevents`) is a key of
the device's `attrs` (resp. `uevent`) whose value passes the candidate test
against the rule's candidates for that key. -/
theorem Match_iff (u : CaseTables) (r : Action) (e : DeviceEvent) :
    r.Match u e = true ↔
      foundIn u e.event r.events = true ∧
      foundIn u e.device.path r.paths = true ∧
      foundIn u e.device.subsystem r.subsystems = true ∧
      foundIn u e.device.typ r.types = true ∧
      foundIn u e.device.driver r.drivers = true ∧
      (∀ k Vs, r.attrs.lookup k = some Vs →
        ∃ v, e.device.attrs.lookup k = some v ∧ foundIn u v Vs = true) ∧
      (∀ k Vs, r.uevents.lookup k = some Vs →
        ∃ v, e.device.uevent.lookup k = some v ∧ foundIn u v Vs = true) := by
  have key : ∀ (dev : GoMap String) (m : GoMap (List String)),
      matchEntries u dev m.entries = true ↔
        ∀ k Vs, m.lookup k = some Vs →
          ∃ v, dev.lookup k = some v ∧ foundIn u v Vs = true := by
    intro dev m
    rw [matchEntries_iff]
    constructor
    · intro h k Vs hk
      exact h ⟨k, Vs⟩ (AList.mem_lookup_iff.1 (Option.mem_def.2 hk))
    · rintro h ⟨k, Vs⟩ hmem
      exact h k Vs (Option.mem_def.1 (AList.mem_lookup_iff.2 hmem))
  rw [← key, ← key]
  unfold Action.Match
  cases foundIn u e.event r.events <;> cases foundIn u e.device.path r.paths <;>
    cases foundIn u e.device.subsystem r.subsystems <;>
    cases foundIn u e.device.typ r.types <;>
    cases foundIn u e.device.driver r.drivers <;>
    cases matchEntries u e.device.attrs r.attrs.entries <;>
    cases matchEntries u e.device.uevent r.uevents.entries <;> simp

end action

namespace action

open strings deviceevent

theorem loadSliceFromShadow_eq_nil (shadow : List String)
    (h : ∀ s ∈ shadow, s = "") : loadSliceFromShadow shadow = [] := by
  unfold loadSliceFromShadow
  rw [List.filter_eq_nil_iff]
  intro s hs
  simp [h s hs]

theorem loadMapFromShadow_of_all_empty (m : GoMap (List String)) (shadow : List String)
    (h : ∀ s ∈ shadow, s = "") : loadMapFromShadow m shadow = (m, none) := by
  induction shadow with
  | nil => rfl
  | cons entry rest ih =>
    have he : entry = "" := h entry (List.mem_cons_self _ _)
    have hr : ∀ s ∈ rest, s = "" := fun s hs => h s (List.mem_cons_of_mem _ hs)
    rw [loadMapFromShadow, if_pos he, ih hr]

/-- **C3.** A rule file that lists no event (every shadow value of `event` is
the empty string, or there is none) yields a rule whose events are
`COLDPLUG, ADD`; when the rest of `[match]` is empty as well, the file does
parse, and the rule matches every device on `COLDPLUG` and on `ADD` and no
device on `REMOVE`, `BIND`, `UNBIND`, `CHANGE` or `MOVE`. -/
theorem default_events (u : CaseTables) (ShadowLoad : String → Except String IniFile)
    (fullpath : String) (conf : IniFile)
    (hload : ShadowLoad fullpath = .ok conf)
    (hevent : ∀ s ∈ conf.event, s = "") :
    (∀ a, NewActionFromFile ShadowLoad fullpath = .ok a → a.events = ["COLDPLUG", "ADD"]) ∧
    ((∀ s ∈ conf.path ++ conf.subsystem ++ conf.type ++ conf.driver ++ conf.attr
          ++ conf.uevent, s = "") →
      ∃ a, NewActionFromFile ShadowLoad fullpath = .ok a ∧
        a.events = ["COLDPLUG", "ADD"] ∧
        ∀ dev : device.Device,
          a.Match u (deviceevent.New Coldplug dev) = true ∧
          a.Match u (deviceevent.New Add dev) = true ∧
          a.Match u (deviceevent.New Remove dev) = false ∧
          a.Match u (deviceevent.New Bind dev) = false ∧
          a.Match u (deviceevent.New Unbind dev) = false ∧
          a.Match u (deviceevent.New Change dev) = false ∧
          a.Match u (deviceevent.New Move dev) = false) := by
  constructor
  · intro a ha
    unfold NewActionFromFile at ha
    rw [hload] at ha
    simp only [loadSliceFromShadow_eq_nil conf.event hevent, List.length_nil, if_true] at ha
    rcases h1 : loadMapFromShadow ∅ conf.attr with ⟨m1, _ | e1⟩
    · rcases h2 : loadMapFromShadow ∅ conf.uevent with ⟨m2, _ | e2⟩
      · rw [h1, h2] at ha
        simp only [Except.ok.injEq] at ha
        rw [← ha]
      · rw [h1, h2] at ha
        simp at ha
    · rw [h1] at ha
      simp at ha
  · intro hrest
    have hp : ∀ s ∈ conf.path, s = "" := fun s hs => hrest s (by simp [hs])
    have hs : ∀ s ∈ conf.subsystem, s = "" := fun s hs => hrest s (by simp [hs])
    have ht : ∀ s ∈ conf.type, s = "" := fun s hs => hrest s (by simp [hs])
    have hd : ∀ s ∈ conf.driver, s = "" := fun s hs => hrest s (by simp [hs])
    have ha : ∀ s ∈ conf.attr, s = "" := fun s hs => hrest s (by simp [hs])
    have hu : ∀ s ∈ conf.uevent, s = "" := fun s hs => hrest s (by simp [hs])
    refine ⟨{ name := path.Base fullpath, events := ["COLDPLUG", "ADD"], paths := [],
              subsystems := [], types := [], drivers := [], attrs := ∅, uevents := ∅,
              execs := conf.exec }, ?_, rfl, ?_⟩
    · unfold NewActionFromFile
      rw [hload]
      simp only [loadSliceFromShadow_eq_nil _ hevent, loadSliceFromShadow_eq_nil _ hp,
        loadSliceFromShadow_eq_nil _ hs, loadSliceFromShadow_eq_nil _ ht,
        loadSliceFromShadow_eq_nil _ hd, loadMapFromShadow_of_all_empty _ _ ha,
        loadMapFromShadow_of_all_empty _ _ hu, List.length_nil, if_true]
    · intro dev
      exact ⟨rfl, rfl, rfl, rfl, rfl, rfl, rfl⟩

/-- The default events at the rule file `m.conf` with an empty `[match]`. -/
theorem default_events_witness :
    (∀ a, NewActionFromFile (fun _ => .ok emptyMatchFile) "/etc/onplugd.d/m.conf" = .ok a →
      a.events = ["COLDPLUG", "ADD"]) ∧
    ∃ a, NewActionFromFile (fun _ => .ok emptyMatchFile) "/etc/onplugd.d/m.conf" = .ok a ∧
      a.name = "m.conf" ∧
      a.Match ⟨id, id⟩ (deviceevent.New Coldplug (device.New "/devices/usb1")) = true ∧
      a.Match ⟨id, id⟩ (deviceevent.New Remove (device.New "/devices/usb1")) = false := by
  have h := default_events ⟨id, id⟩ (fun _ => .ok emptyMatchFile) "/etc/onplugd.d/m.conf"
    emptyMatchFile rfl (by decide)
  refine ⟨h.1, ?_⟩
  obtain ⟨a, ha, _, hm⟩ := h.2 (by decide)
  refine ⟨a, ha, ?_, (hm _).1, (hm _).2.2.1⟩
  have ha2 := ha
  simp only [NewActionFromFile] at ha2
  injection ha2 with ha2
  rw [← ha2]
  decide

end action

namespace strings

theorem cut_eq_none_iff (sep : Char) (s : List Char) : cut sep s = none ↔ sep ∉ s := by
  induction s with
  | nil => simp [cut]
  | cons c cs ih =>
    by_cases h : c = sep
    · simp [cut, h]
    · have h2 : ¬ sep = c := fun e => h e.symm
      simp [cut, h, h2, ih]

theorem SplitN_two_of_not_mem (s : String) (sep : Char) (h : sep ∉ s.data) :
    SplitN s sep 2 = [s] := by
  simp [SplitN, splitNChars, (cut_eq_none_iff sep s.data).2 h]

theorem SplitN_two_of_mem (s : String) (sep : Char) (h : sep ∈ s.data) :
    ∃ a b, cut sep s.data = some (a, b) ∧ SplitN s sep 2 = [String.mk a, String.mk b] := by
  cases hc : cut sep s.data with
  | none => exact absurd h ((cut_eq_none_iff sep s.data).1 hc)
  | some p => exact ⟨p.1, p.2, rfl, by simp [SplitN, splitNChars, hc]⟩

end strings

namespace action

open strings

theorem loadMapFromShadow_error_iff (m : GoMap (List String)) (shadow : List String) :
    (loadMapFromShadow m shadow).2.isSome = true ↔
      ∃ entry ∈ shadow, entry ≠ "" ∧ '=' ∉ entry.data := by
  induction shadow generalizing m with
  | nil => simp [loadMapFromShadow]
  | cons entry rest ih =>
    by_cases he : entry = ""
    · rw [loadMapFromShadow, if_pos he, ih]
      simp [he]
    · by_cases hq : '=' ∈ entry.data
      · obtain ⟨a, b, _, hsplit⟩ := SplitN_two_of_mem entry '=' hq
        rw [loadMapFromShadow, if_neg he, hsplit]
        simp only [ih, List.mem_cons, exists_eq_or_imp, hq, not_true_eq_false, and_false,
          false_or]
      · rw [loadMapFromShadow, if_neg he, SplitN_two_of_not_mem entry '=' hq]
        simp [he, hq]

/-- **C4.** `loadMapFromShadow` returns an error exactly when some non-empty
entry of the list contains no `=`; when every non-empty entry contains `=` it
returns nil. -/
theorem loadMapFromShadow_error (m : GoMap (List String)) (shadow : List String) :
    ((loadMapFromShadow m shadow).2 ≠ none ↔
      ∃ entry ∈ shadow, entry ≠ "" ∧ '=' ∉ entry.data) ∧
    ((∀ entry ∈ shadow, entry ≠ "" → '=' ∈ entry.data) →
      (loadMapFromShadow m shadow).2 = none) := by
  have h := loadMapFromShadow_error_iff m shadow
  rw [Option.isSome_iff_ne_none] at h
  refine ⟨h, fun hall => ?_⟩
  by_contra hne
  obtain ⟨entry, hmem, hne2, hno⟩ := h.1 hne
  exact hno (hall entry hmem hne2)

end action

namespace actionregistry

open action deviceevent

theorem countP_key_of_nodupKeys {V : Type} (p : Sigma (fun _ : String => V) → Bool)
    (l : List (Sigma (fun _ : String => V))) (hl : l.NodupKeys) (k : String) (v : V)
    (hmem : ⟨k, v⟩ ∈ l) :
    (l.filter p).countP (fun entry => decide (entry.1 = k)) = if p ⟨k, v⟩ then 1 else 0 := by
  induction l with
  | nil => cases hmem
  | cons x xs ih =>
    rw [List.nodupKeys_cons] at hl
    rcases List.mem_cons.1 hmem with hx | hx
    · subst hx
      have hzero : (xs.filter p).countP (fun entry => decide (entry.1 = k)) = 0 := by
        rw [List.countP_eq_zero]
        intro y hy hyk
        have hy2 : y ∈ xs := List.mem_of_mem_filter hy
        have : y.1 ∈ xs.keys := List.mem_keys_of_mem hy2
        simp only [decide_eq_true_eq] at hyk
        rw [hyk] at this
        exact hl.1 this
      cases hp : p ⟨k, v⟩
      · simp [List.filter_cons, hp, hzero]
      · simp [List.filter_cons, hp, hzero]
    · have hne : x.1 ≠ k := by
        intro h
        have : k ∈ xs.keys := List.mem_keys_of_mem hx
        rw [← h] at this
        exact hl.1 this
      cases hp : p x
      · simp [List.filter_cons, hp, ih hl.2 hx]
      · simp [List.filter_cons, hp, hne, ih hl.2 hx]

theorem mem_matching (u : CaseTables) (ar : ActionRegistry) (e : DeviceEvent)
    (entry : Sigma (fun _ : String => Action)) :
    entry ∈ ar.matching u e ↔
      ar.actions.lookup entry.1 = some entry.2 ∧ entry.2.Match u e = true := by
  rcases entry with ⟨name, a⟩
  simp only [ActionRegistry.matching, List.mem_filter]
  rw [← AList.mem_lookup_iff, Option.mem_def]

/-- **C5.** On a device event the registry runs `Do` once for every rule of the
registry that matches and for no other rule: the collected entries are entries
of the registry that match, and a registry entry named `name` is collected once
when its rule matches and not at all otherwise. Each `Do` hands the commands of
its rule's `execs` to the executor, once each and in order, with the rule's
name as prefix; every call the executor receives comes from such a `Do`. -/
theorem OnDeviceEvent_dispatch (u : CaseTables) (environ : List String)
    (ar : ActionRegistry) (e : DeviceEvent) :
    (∀ name a, ar.actions.lookup name = some a →
      (ar.matching u e).countP (fun entry => decide (entry.1 = name))
        = if a.Match u e then 1 else 0) ∧
    (∀ entry ∈ ar.matching u e,
      ar.actions.lookup entry.1 = some entry.2 ∧ entry.2.Match u e = true) ∧
    ar.OnDeviceEvent u environ e
      = (ar.matching u e).map (fun entry => entry.2.Do u environ e) ∧
    (∀ a : Action,
      (a.Do u environ e).map (fun call => call.cmdline) = a.execs ∧
      ∀ call ∈ a.Do u environ e, call.pfx = a.name ∧ call.env = Action.doEnv u environ e) ∧
    (∀ calls ∈ ar.OnDeviceEvent u environ e,
      ∃ name a, ar.actions.lookup name = some a ∧ a.Match u e = true ∧
        calls = a.Do u environ e) := by
  refine ⟨?_, ?_, ?_, ?_, ?_⟩
  · intro name a h
    have hmem : (⟨name, a⟩ : Sigma (fun _ : String => Action)) ∈ ar.actions.entries :=
      AList.mem_lookup_iff.1 (Option.mem_def.2 h)
    exact countP_key_of_nodupKeys (fun entry => entry.2.Match u e) ar.actions.entries
      ar.actions.nodupKeys name a hmem
  · intro entry h
    exact (mem_matching u ar e entry).1 h
  · simp [ActionRegistry.OnDeviceEvent]
  · intro a
    constructor
    · simp only [Action.Do, List.map_map]
      exact List.map_id _
    · intro call hcall
      simp only [Action.Do, List.mem_map] at hcall
      obtain ⟨c, _, rfl⟩ := hcall
      exact ⟨rfl, rfl⟩
  · intro calls hcalls
    simp only [ActionRegistry.OnDeviceEvent, List.map_map, List.mem_map,
      Function.comp_apply] at hcalls
    obtain ⟨entry, hentry, rfl⟩ := hcalls
    have := (mem_matching u ar e entry).1 hentry
    exact ⟨entry.1, entry.2, this.1, this.2, rfl⟩

end actionregistry

namespace action

open strings deviceevent

theorem appendEntries_eq (u : CaseTables) (label : String) (env : List String)
    (m : GoMap String) :
    appendEntries u label env m
      = env ++ m.entries.map (fun kv => label ++ ToUpper u kv.1 ++ "=" ++ kv.2) := by
  unfold appendEntries
  generalize m.entries = l
  induction l generalizing env with
  | nil => simp
  | cons x xs ih => simp [List.foldl_cons, ih]

theorem doEnv_eq (u : CaseTables) (environ : List String) (e : DeviceEvent) :
    Action.doEnv u environ e
      = environ ++
        (["ONPLUGD_EVENT=" ++ ToUpper u e.event, "ONPLUGD_PATH=" ++ e.device.path,
          "ONPLUGD_SUBSYSTEM=" ++ e.device.subsystem]
        ++ (if e.device.driver ≠ "" then ["ONPLUGD_DRIVER=" ++ e.device.driver] else [])
        ++ (if e.device.typ ≠ "" then ["ONPLUGD_TYPE=" ++ e.device.typ] else [])
        ++ e.device.attrs.entries.map
            (fun kv => "ONPLUGD_ATTR_" ++ ToUpper u kv.1 ++ "=" ++ kv.2)
        ++ e.device.uevent.entries.map
            (fun kv => "ONPLUGD_UEVENT_" ++ ToUpper u kv.1 ++ "=" ++ kv.2)) := by
  unfold Action.doEnv
  simp only [appendEntries_eq]
  split_ifs <;> simp

theorem doEnv_append (u : CaseTables) (environ : List String) (e : DeviceEvent) :
    Action.doEnv u environ e = environ ++ Action.doEnv u [] e := by
  rw [doEnv_eq u environ, doEnv_eq u []]
  simp

theorem setsVariable_injected (u : CaseTables) (e : DeviceEvent) (name : String)
    (hevent : ∀ x, setsVariable name ("ONPLUGD_EVENT=" ++ x) = false)
    (hpath : ∀ x, setsVariable name ("ONPLUGD_PATH=" ++ x) = false)
    (hsub : ∀ x, setsVariable name ("ONPLUGD_SUBSYSTEM=" ++ x) = false)
    (hattr : ∀ x v, setsVariable name ("ONPLUGD_ATTR_" ++ x ++ "=" ++ v) = false)
    (huevent : ∀ x v, setsVariable name ("ONPLUGD_UEVENT_" ++ x ++ "=" ++ v) = false)
    (entry : String) (hmem : entry ∈ Action.doEnv u [] e)
    (hsets : setsVariable name entry = true) :
    (e.device.driver ≠ "" ∧ entry = "ONPLUGD_DRIVER=" ++ e.device.driver) ∨
    (e.device.typ ≠ "" ∧ entry = "ONPLUGD_TYPE=" ++ e.device.typ) := by
  rw [doEnv_eq] at hmem
  simp only [List.nil_append, List.mem_append, List.mem_cons, List.mem_map,
    List.not_mem_nil, or_false] at hmem
  rcases hmem with (((((h | h | h) | h) | h) | ⟨kv, _, h⟩) | ⟨kv, _, h⟩)
  · rw [h, hevent] at hsets; cases hsets
  · rw [h, hpath] at hsets; cases hsets
  · rw [h, hsub] at hsets; cases hsets
  · by_cases hd : e.device.driver = ""
    · simp [hd] at h
    · simp only [ne_eq, hd, not_false_eq_true, if_true, List.mem_singleton] at h
      exact Or.inl ⟨hd, h⟩
  · by_cases ht : e.device.typ = ""
    · simp [ht] at h
    · simp only [ne_eq, ht, not_false_eq_true, if_true, List.mem_singleton] at h
      exact Or.inr ⟨ht, h⟩
  · rw [← h, hattr] at hsets; cases hsets
  · rw [← h, huevent] at hsets; cases hsets

/-- **C6.** For a rule with at least one command, `Do` calls the executor, and
the environment of every call is the process environment followed by the
entries `Do` adds. It contains `ONPLUGD_ATTR_<upper(k)>=v` for every `(k, v)`
of the device's `attrs`, `ONPLUGD_UEVENT_<upper(k)>=v` for every `(k, v)` of its
`uevent` mapping, and the `ONPLUGD_EVENT`, `ONPLUGD_PATH` and
`ONPLUGD_SUBSYSTEM` entries; the added entries set `ONPLUGD_TYPE` (resp.
`ONPLUGD_DRIVER`) exactly when the device's type (resp. driver) is non-empty,
and then to that value. -/
theorem Do_environment (u : CaseTables) (environ : List String) (a : Action)
    (e : DeviceEvent) (hexecs : a.execs ≠ []) :
    a.Do u environ e ≠ [] ∧
    ∀ call ∈ a.Do u environ e,
      call.env = environ ++ Action.doEnv u [] e ∧
      (∀ k v, e.device.attrs.lookup k = some v →
        "ONPLUGD_ATTR_" ++ ToUpper u k ++ "=" ++ v ∈ call.env) ∧
      (∀ k v, e.device.uevent.lookup k = some v →
        "ONPLUGD_UEVENT_" ++ ToUpper u k ++ "=" ++ v ∈ call.env) ∧
      "ONPLUGD_EVENT=" ++ ToUpper u e.event ∈ call.env ∧
      "ONPLUGD_PATH=" ++ e.device.path ∈ call.env ∧
      "ONPLUGD_SUBSYSTEM=" ++ e.device.subsystem ∈ call.env ∧
      ((∃ entry ∈ Action.doEnv u [] e, setsVariable "ONPLUGD_TYPE" entry = true)
        ↔ e.device.typ ≠ "") ∧
      ((∃ entry ∈ Action.doEnv u [] e, setsVariable "ONPLUGD_DRIVER" entry = true)
        ↔ e.device.driver ≠ "") ∧
      (∀ entry ∈ Action.doEnv u [] e, setsVariable "ONPLUGD_TYPE" entry = true →
        entry = "ONPLUGD_TYPE=" ++ e.device.typ) ∧
      (∀ entry ∈ Action.doEnv u [] e, setsVariable "ONPLUGD_DRIVER" entry = true →
        entry = "ONPLUGD_DRIVER=" ++ e.device.driver) := by
  have htype := setsVariable_injected u e "ONPLUGD_TYPE" (fun _ => rfl) (fun _ => rfl)
    (fun _ => rfl) (fun _ _ => rfl) (fun _ _ => rfl)
  have hdriver := setsVariable_injected u e "ONPLUGD_DRIVER" (fun _ => rfl) (fun _ => rfl)
    (fun _ => rfl) (fun _ _ => rfl) (fun _ _ => rfl)
  have hnotT : ∀ x, setsVariable "ONPLUGD_TYPE" ("ONPLUGD_DRIVER=" ++ x) = false :=
    fun _ => rfl
  have hnotD : ∀ x, setsVariable "ONPLUGD_DRIVER" ("ONPLUGD_TYPE=" ++ x) = false :=
    fun _ => rfl
  have hT : ∀ x, setsVariable "ONPLUGD_TYPE" ("ONPLUGD_TYPE=" ++ x) = true := by
    intro x; simp [setsVariable]
  have hD : ∀ x, setsVariable "ONPLUGD_DRIVER" ("ONPLUGD_DRIVER=" ++ x) = true := by
    intro x; simp [setsVariable]
  constructor
  · cases hx : a.execs with
    | nil => exact absurd hx hexecs
    | cons c cs => simp [Action.Do, hx]
  · intro call hcall
    simp only [Action.Do, List.mem_map] at hcall
    obtain ⟨c, _, rfl⟩ := hcall
    refine ⟨doEnv_append u environ e, ?_, ?_, ?_, ?_, ?_, ?_, ?_, ?_, ?_⟩
    · intro k v hk
      have hmem : (⟨k, v⟩ : Sigma (fun _ : String => String)) ∈ e.device.attrs.entries :=
        AList.mem_lookup_iff.1 (Option.mem_def.2 hk)
      show _ ∈ Action.doEnv u environ e
      rw [doEnv_eq]
      simp only [List.mem_append, List.mem_map]
      exact Or.inr (Or.inl (Or.inr ⟨⟨k, v⟩, hmem, rfl⟩))
    · intro k v hk
      have hmem : (⟨k, v⟩ : Sigma (fun _ : String => String)) ∈ e.device.uevent.entries :=
        AList.mem_lookup_iff.1 (Option.mem_def.2 hk)
      show _ ∈ Action.doEnv u environ e
      rw [doEnv_eq]
      simp only [List.mem_append, List.mem_map]
      exact Or.inr (Or.inr ⟨⟨k, v⟩, hmem, rfl⟩)
    · show _ ∈ Action.doEnv u environ e
      rw [doEnv_eq]; simp
    · show _ ∈ Action.doEnv u environ e
      rw [doEnv_eq]; simp
    · show _ ∈ Action.doEnv u environ e
      rw [doEnv_eq]; simp
    · constructor
      · rintro ⟨entry, hmem, hsets⟩
        rcases htype entry hmem hsets with ⟨_, h⟩ | ⟨h, _⟩
        · rw [h, hnotT] at hsets; cases hsets
        · exact h
      · intro h
        refine ⟨"ONPLUGD_TYPE=" ++ e.device.typ, ?_, hT _⟩
        rw [doEnv_eq]; simp [h]
    · constructor
      · rintro ⟨entry, hmem, hsets⟩
        rcases hdriver entry hmem hsets with ⟨h, _⟩ | ⟨_, h⟩
        · exact h
        · rw [h, hnotD] at hsets; cases hsets
      · intro h
        refine ⟨"ONPLUGD_DRIVER=" ++ e.device.driver, ?_, hD _⟩
        rw [doEnv_eq]; simp [h]
    · intro entry hmem hsets
      rcases htype entry hmem hsets with ⟨_, h⟩ | ⟨_, h⟩
      · rw [h, hnotT] at hsets; cases hsets
      · exact h
    · intro entry hmem hsets
      rcases hdriver entry hmem hsets with ⟨_, h⟩ | ⟨_, h⟩
      · exact h
      · rw [h, hnotD] at hsets; cases hsets

/-- The environment of the one command of `echoRule` for the mouse on `ADD`,
under the process environment `HOME=/root`. -/
theorem Do_environment_witness :
    echoRule.execs ≠ [] ∧
    ∀ call ∈ echoRule.Do ⟨id, id⟩ ["HOME=/root"] (deviceevent.New Add mouse),
      "ONPLUGD_ATTR_IDVENDOR=046d" ∈ call.env ∧
      "ONPLUGD_UEVENT_PRODUCT=46d/c52b/2400" ∈ call.env ∧
      "ONPLUGD_EVENT=ADD" ∈ call.env :=
  ⟨by decide, fun call hcall =>
    have h := (Do_environment ⟨id, id⟩ ["HOME=/root"] echoRule (deviceevent.New Add mouse)
      (by decide)).2 call hcall
    ⟨h.2.1 "idVendor" "046d" (by decide), h.2.2.1 "PRODUCT" "46d/c52b/2400" (by decide),
      h.2.2.2.1⟩⟩

end action

namespace actionregistryupdater

open action actionregistry confmonitor

/-- **C7.** One step of the updater on a file event with basename `n`. A
`Delete` leaves no entry for `n`. A `Create` or `Change` whose file fails to
parse leaves the registry as it was and reports the error; one whose file
parses to the rule `r` leaves `n` bound to `r`. In every case the entries under
the other names are unchanged. -/
theorem onFileEvent_registry (ShadowLoad : String → Except String IniFile)
    (registry : ActionRegistry) (event : FileEvent) :
    (event.Event = FileEventType.FileDelete →
      (onFileEvent ShadowLoad registry event).1.actions.lookup (path.Base event.Name)
        = none) ∧
    (event.Event ≠ FileEventType.FileDelete →
      ∀ err, NewActionFromFile ShadowLoad event.Name = .error err →
        (onFileEvent ShadowLoad registry event).1 = registry ∧
        (onFileEvent ShadowLoad registry event).2.isSome = true) ∧
    (event.Event ≠ FileEventType.FileDelete →
      ∀ r, NewActionFromFile ShadowLoad event.Name = .ok r →
        (onFileEvent ShadowLoad registry event).1.actions.lookup (path.Base event.Name)
          = some r) ∧
    (∀ other, other ≠ path.Base event.Name →
      (onFileEvent ShadowLoad registry event).1.actions.lookup other
        = registry.actions.lookup other) := by
  refine ⟨?_, ?_, ?_, ?_⟩
  · intro hdel
    simp only [onFileEvent, hdel, if_true, ActionRegistry.Remove]
    exact AList.lookup_erase _ _
  · intro hdel err herr
    simp [onFileEvent, hdel, herr]
  · intro hdel r hr
    simp only [onFileEvent, hdel, if_false, hr, ActionRegistry.Update]
    exact AList.lookup_insert _
  · intro other hother
    unfold onFileEvent
    by_cases hdel : event.Event = FileEventType.FileDelete
    · simp only [hdel, if_true, ActionRegistry.Remove]
      exact AList.lookup_erase_ne hother
    · simp only [hdel, if_false]
      cases hparse : NewActionFromFile ShadowLoad event.Name with
      | error err => rfl
      | ok r =>
        simp only [ActionRegistry.Update]
        exact AList.lookup_insert_ne hother

end actionregistryupdater

namespace devicemonitor

open strings device deviceevent

theorem runCallbacks_calls (e : DeviceEvent) (index : Nat)
    (callbacks : List (DeviceEvent → Option String)) :
    (runCallbacks e index callbacks).filterMap Effect.call?
      = (List.range' index callbacks.length).map (fun i => (i, e)) := by
  induction callbacks generalizing index with
  | nil => simp [runCallbacks]
  | cons cb rest ih =>
    simp only [runCallbacks, List.cons_append, List.length_cons, List.range'_succ,
      List.map_cons, List.filterMap_cons, Effect.call?, List.filterMap_append, ih]
    cases cb e <;> simp [Effect.call?]

theorem processEvent_effects (m : UdevDeviceMonitor) (k : Event) (dev : UdevDevice)
    (hacc : Accepted (k, dev)) :
    (m.processEvent k dev).2
      = runCallbacks (deviceevent.New k (refreshed m.records dev)) 0 m.callbacks := by
  obtain ⟨hk, hinit, hsub⟩ := hacc
  simp only at hk hinit hsub
  unfold UdevDeviceMonitor.processEvent
  simp [hk, hinit, hsub]

theorem Unbind_ne_Remove : Unbind ≠ Remove := by decide

theorem processEvent_lookup (m : UdevDeviceMonitor) (k : Event) (dev : UdevDevice)
    (hacc : Accepted (k, dev)) (hwk : WellKeyed m.records) (q : String) :
    (m.processEvent k dev).1.lookup q =
      if q = dev.Devpath then
        (if k ≠ Remove ∧ ((m.records.lookup dev.Devpath).isSome = true ∨ k ≠ Unbind)
          then some (refreshed m.records dev) else none)
      else m.records.lookup q := by
  obtain ⟨hk, hinit, hsub⟩ := hacc
  simp only at hk hinit hsub
  unfold UdevDeviceMonitor.processEvent
  simp only [hk, hinit, hsub, if_false, Bool.not_true, Bool.false_eq_true]
  cases hfound : m.records.lookup dev.Devpath with
  | none =>
    by_cases hr : k = Remove
    · subst hr
      by_cases hq : q = dev.Devpath
      · subst hq
        simp [device.New, hfound]
      · simp [device.New, hq, AList.lookup_erase_ne hq]
    · by_cases hu : k = Unbind
      · subst hu
        by_cases hq : q = dev.Devpath
        · subst hq
          simp [hfound, hr]
        · simp [hq, hr, hfound]
      · by_cases hq : q = dev.Devpath
        · subst hq
          simp [hr, hu]
        · simp [hr, hu, hq, AList.lookup_insert_ne hq]
  | some d0 =>
    have hp : d0.path = dev.Devpath := hwk _ _ hfound
    by_cases hr : k = Remove
    · subst hr
      by_cases hq : q = dev.Devpath
      · subst hq
        simp [hp]
      · simp [hp, hq, AList.lookup_erase_ne hq]
    · by_cases hq : q = dev.Devpath
      · subst hq
        simp [hr, hfound]
      · simp [hr, hq, hfound, AList.lookup_insert_ne hq]

end devicemonitor

namespace devicemonitor

open strings device deviceevent

theorem refreshed_path (records : GoMap Device) (dev : UdevDevice)
    (hwk : WellKeyed records) : (refreshed records dev).path = dev.Devpath := by
  unfold refreshed
  cases h : records.lookup dev.Devpath with
  | none => simp [device.New]
  | some d0 => simpa using hwk _ _ h

theorem processEvent_not_accepted (m : UdevDeviceMonitor) (k : Event) (dev : UdevDevice)
    (h : ¬ Accepted (k, dev)) :
    (m.processEvent k dev).1 = m.records ∧
      (m.processEvent k dev).2.filterMap Effect.call? = [] := by
  unfold UdevDeviceMonitor.processEvent
  by_cases hk : k = Unknown
  · simp [hk]
  · by_cases hinit : dev.IsInitialized = true
    · cases hsub : checkSubsystem dev with
      | none => exact absurd ⟨hk, hinit, hsub⟩ h
      | some err => simp [hk, hinit, Effect.call?]
    · simp [hk, hinit]

theorem wellKeyed_processEvent (m : UdevDeviceMonitor) (k : Event) (dev : UdevDevice)
    (hwk : WellKeyed m.records) : WellKeyed (m.processEvent k dev).1 := by
  by_cases hacc : Accepted (k, dev)
  · intro q d hq
    rw [processEvent_lookup m k dev hacc hwk q] at hq
    by_cases hqp : q = dev.Devpath
    · rw [if_pos hqp] at hq
      split_ifs at hq
      · cases hq
        rw [hqp]
        exact refreshed_path _ _ hwk
    · rw [if_neg hqp] at hq
      exact hwk _ _ hq
  · rw [(processEvent_not_accepted m k dev hacc).1]
    exact hwk

theorem wellKeyed_run (m : UdevDeviceMonitor) (evs : List (Event × UdevDevice))
    (hwk : WellKeyed m.records) : WellKeyed (m.run evs).records := by
  induction evs generalizing m with
  | nil => exact hwk
  | cons ev rest ih =>
    exact ih (m.step ev) (wellKeyed_processEvent m ev.1 ev.2 hwk)

theorem wellKeyed_empty : WellKeyed (∅ : GoMap Device) := by
  intro p d h
  simp at h

theorem run_cons (m : UdevDeviceMonitor) (ev : Event × UdevDevice)
    (evs : List (Event × UdevDevice)) : m.run (ev :: evs) = (m.step ev).run evs := rfl

theorem run_append (m : UdevDeviceMonitor) (evs evs2 : List (Event × UdevDevice)) :
    m.run (evs ++ evs2) = (m.run evs).run evs2 := by
  simp [UdevDeviceMonitor.run, List.foldl_append]

theorem step_callbacks (m : UdevDeviceMonitor) (ev : Event × UdevDevice) :
    (m.step ev).callbacks = m.callbacks := rfl

theorem run_callbacks (m : UdevDeviceMonitor) (evs : List (Event × UdevDevice)) :
    (m.run evs).callbacks = m.callbacks := by
  induction evs generalizing m with
  | nil => rfl
  | cons ev rest ih => rw [run_cons, ih, step_callbacks]

/-- **C8.** For an accepted event of kind `k` on devpath `p` and a store whose
records are filed under their own devpath: afterwards the store contains `p`
exactly when `k` is not `REMOVE` and (`p` was in the store or `k` is not
`UNBIND`); the records of the other devpaths are unchanged; every registered
callback is called once, in registration order, with the event of kind `k` on
the device of devpath `p`; and the store is again filed under its devpaths.
For `ADD`, `BIND`, `UNBIND`, `REMOVE` on one devpath from the empty store: the
record is there after each of the first three events and gone after the
fourth, and each callback is called four times, once per event in order. -/
theorem processEvent_store (m : UdevDeviceMonitor) (k : Event) (dev : UdevDevice)
    (hacc : Accepted (k, dev)) (hwk : WellKeyed m.records) :
    (((m.processEvent k dev).1.lookup dev.Devpath).isSome = true ↔
      k ≠ Remove ∧ ((m.records.lookup dev.Devpath).isSome = true ∨ k ≠ Unbind)) ∧
    (∀ q, q ≠ dev.Devpath →
      (m.processEvent k dev).1.lookup q = m.records.lookup q) ∧
    (∃ e : DeviceEvent, e.event = k ∧ e.device.path = dev.Devpath ∧
      (m.processEvent k dev).2.filterMap Effect.call?
        = (List.range m.callbacks.length).map (fun i => (i, e))) ∧
    WellKeyed (m.processEvent k dev).1 ∧
    (∀ (callbacks : List (DeviceEvent → Option String)) (d1 d2 d3 d4 : UdevDevice),
      Accepted (deviceevent.Add, d1) → Accepted (deviceevent.Bind, d2) →
      Accepted (Unbind, d3) → Accepted (Remove, d4) →
      d2.Devpath = d1.Devpath → d3.Devpath = d1.Devpath → d4.Devpath = d1.Devpath →
      (((UdevDeviceMonitor.mk callbacks ∅).run
          [(deviceevent.Add, d1)]).records.lookup d1.Devpath).isSome = true ∧
      (((UdevDeviceMonitor.mk callbacks ∅).run
          [(deviceevent.Add, d1), (deviceevent.Bind, d2)]).records.lookup
            d1.Devpath).isSome = true ∧
      (((UdevDeviceMonitor.mk callbacks ∅).run
          [(deviceevent.Add, d1), (deviceevent.Bind, d2), (Unbind, d3)]).records.lookup
            d1.Devpath).isSome = true ∧
      ((UdevDeviceMonitor.mk callbacks ∅).run
          [(deviceevent.Add, d1), (deviceevent.Bind, d2), (Unbind, d3),
           (Remove, d4)]).records.lookup d1.Devpath
        = none ∧
      (((UdevDeviceMonitor.mk callbacks ∅).trace
          [(deviceevent.Add, d1), (deviceevent.Bind, d2), (Unbind, d3), (Remove, d4)]).filterMap
            Effect.call?).map (fun c => (c.1, c.2.event))
        = (List.range callbacks.length).map (fun i => (i, deviceevent.Add))
          ++ (List.range callbacks.length).map (fun i => (i, deviceevent.Bind))
          ++ (List.range callbacks.length).map (fun i => (i, Unbind))
          ++ (List.range callbacks.length).map (fun i => (i, Remove))) := by
  refine ⟨?_, ?_, ?_, wellKeyed_processEvent m k dev hwk, ?_⟩
  · rw [processEvent_lookup m k dev hacc hwk, if_pos rfl]
    split_ifs with h
    · simpa using h
    · simpa using h
  · intro q hq
    rw [processEvent_lookup m k dev hacc hwk, if_neg hq]
  · refine ⟨deviceevent.New k (refreshed m.records dev), rfl, refreshed_path _ _ hwk, ?_⟩
    rw [processEvent_effects m k dev hacc, runCallbacks_calls, List.range_eq_range']
  · intro callbacks d1 d2 d3 d4 h1 h2 h3 h4 e2 e3 e4
    have look : ∀ (m : UdevDeviceMonitor) (k : Event) (d : UdevDevice),
        Accepted (k, d) → WellKeyed m.records → d.Devpath = d1.Devpath →
        ((m.step (k, d)).records.lookup d1.Devpath).isSome
          = decide (k ≠ Remove ∧
              ((m.records.lookup d1.Devpath).isSome = true ∨ k ≠ Unbind)) := by
      intro m k d hacc hwk hd
      show ((m.processEvent k d).1.lookup d1.Devpath).isSome = _
      rw [processEvent_lookup m k d hacc hwk, if_pos hd.symm, hd]
      split_ifs with h <;> simp [h]
    have calls : ∀ (m : UdevDeviceMonitor) (k : Event) (d : UdevDevice),
        Accepted (k, d) →
        ((m.processEvent k d).2.filterMap Effect.call?).map (fun c => (c.1, c.2.event))
          = (List.range m.callbacks.length).map (fun i => (i, k)) := by
      intro m k d hacc
      rw [processEvent_effects m k d hacc, runCallbacks_calls, List.range_eq_range',
        List.map_map]
      rfl
    let m0 := UdevDeviceMonitor.mk callbacks ∅
    have w0 : WellKeyed m0.records := wellKeyed_empty
    let m1 := m0.step (deviceevent.Add, d1)
    let m2 := m1.step (deviceevent.Bind, d2)
    let m3 := m2.step (Unbind, d3)
    have w1 : WellKeyed m1.records := wellKeyed_processEvent m0 _ _ w0
    have w2 : WellKeyed m2.records := wellKeyed_processEvent _ _ _ w1
    have w3 : WellKeyed m3.records := wellKeyed_processEvent _ _ _ w2
    have p1 := look m0 deviceevent.Add d1 h1 w0 rfl
    have p2 := look m1 deviceevent.Bind d2 h2 w1 e2
    have p3 := look m2 Unbind d3 h3 w2 e3
    have p4 := look m3 Remove d4 h4 w3 e4
    have hAR : deviceevent.Add ≠ Remove := by decide
    have hAU : deviceevent.Add ≠ Unbind := by decide
    have hBR : deviceevent.Bind ≠ Remove := by decide
    have hBU : deviceevent.Bind ≠ Unbind := by decide
    simp only [ne_eq, hAR, hAU, not_false_eq_true, or_true, and_self, decide_True] at p1
    simp only [ne_eq, hBR, hBU, not_false_eq_true, or_true, and_self, decide_True] at p2
    simp only [ne_eq, Unbind_ne_Remove, not_false_eq_true, p2, true_or, and_self,
      decide_True] at p3
    simp only [ne_eq, not_true_eq_false, false_and, decide_False] at p4
    refine ⟨p1, p2, p3, ?_, ?_⟩
    · have : (m3.step (Remove, d4)).records.lookup d1.Devpath = none := by
        cases hx : (m3.step (Remove, d4)).records.lookup d1.Devpath with
        | none => rfl
        | some x => rw [hx] at p4; cases p4
      exact this
    · simp only [UdevDeviceMonitor.trace, List.filterMap_append, List.map_append,
        List.filterMap_nil, List.map_nil, List.append_nil]
      rw [calls _ deviceevent.Add d1 h1, calls _ deviceevent.Bind d2 h2,
        calls _ Unbind d3 h3, calls _ Remove d4 h4]
      simp only [step_callbacks, List.append_assoc]

end devicemonitor

namespace devicemonitor

open strings device deviceevent

/-- The first `ADD` of a USB device, with one callback registered and an empty
store, files a record under the devpath. -/
theorem processEvent_store_witness :
    Accepted (deviceevent.Add, usbDevice "/devices/usb1/1-1" ["idVendor"] "046d") ∧
    WellKeyed (∅ : GoMap Device) ∧
    (((UdevDeviceMonitor.mk [fun _ => none] ∅).processEvent deviceevent.Add
        (usbDevice "/devices/usb1/1-1" ["idVendor"] "046d")).1.lookup
          "/devices/usb1/1-1").isSome = true :=
  ⟨⟨by decide, rfl, rfl⟩, wellKeyed_empty,
    (processEvent_store (UdevDeviceMonitor.mk [fun _ => none] ∅) deviceevent.Add
      (usbDevice "/devices/usb1/1-1" ["idVendor"] "046d") ⟨by decide, rfl, rfl⟩
      wellKeyed_empty).1.2 ⟨by decide, Or.inr (by decide)⟩⟩

end devicemonitor

namespace devicemonitor

open strings device deviceevent

theorem foldl_insert_lookup {V : Type} (l : List (Sigma (fun _ : String => V)))
    (hl : l.NodupKeys) (dst : GoMap V) (a : String) :
    (l.foldl (fun acc kv => acc.insert kv.1 kv.2) dst).lookup a
      = (List.dlookup a l).orElse (fun _ => dst.lookup a) := by
  induction l generalizing dst with
  | nil => simp
  | cons x xs ih =>
    rw [List.nodupKeys_cons] at hl
    rw [List.foldl_cons, ih hl.2]
    by_cases hax : a = x.1
    · subst hax
      have hnone : List.dlookup x.1 xs = none := List.dlookup_eq_none.2 hl.1
      rcases x with ⟨k, v⟩
      simp [hnone, List.dlookup_cons_eq]
    · rcases x with ⟨k, v⟩
      have hka : k ≠ a := fun h => hax h.symm
      rw [List.dlookup_cons_ne _ _ hax, AList.lookup_insert_ne hax]

theorem mergeInto_lookup (dst src : GoMap String) (a : String) :
    (mergeInto dst src).lookup a = (src.lookup a).orElse (fun _ => dst.lookup a) :=
  foldl_insert_lookup src.entries src.nodupKeys dst a

theorem attrsFromUdevDevice_lookup (dev : UdevDevice) (a : String) :
    (attrsFromUdevDevice dev).lookup a
      = if a ∈ dev.Sysattrs then some (dev.SysattrValue a) else none := by
  unfold attrsFromUdevDevice
  have key : ∀ (keys : List String) (acc : GoMap String),
      (keys.foldl (fun attrs k => attrs.insert k (dev.SysattrValue k)) acc).lookup a
        = if a ∈ keys then some (dev.SysattrValue a) else acc.lookup a := by
    intro keys
    induction keys with
    | nil => intro acc; simp
    | cons k ks ih =>
      intro acc
      rw [List.foldl_cons, ih]
      by_cases hk : a = k
      · subst hk
        by_cases hmem : a ∈ ks
        · simp [hmem]
        · simp [hmem]
      · by_cases hmem : a ∈ ks
        · simp [hmem]
        · simp [hmem, hk, AList.lookup_insert_ne hk]
  rw [key]
  simp

theorem ueventFromAttrs_attrs_lookup (attrs : GoMap String) (a : String) :
    (ueventFromAttrs attrs).1.lookup a
      = if a = ueventAttr then none else attrs.lookup a := by
  unfold ueventFromAttrs
  cases h : attrs.lookup ueventAttr with
  | none =>
    by_cases ha : a = ueventAttr
    · subst ha; simp [h]
    · simp [ha]
  | some u =>
    by_cases ha : a = ueventAttr
    · subst ha; simp
    · simp [ha, AList.lookup_erase_ne ha]

theorem refreshed_attrs_lookup (records : GoMap Device) (dev : UdevDevice) (a : String) :
    (refreshed records dev).attrs.lookup a
      = if a ≠ ueventAttr ∧ a ∈ dev.Sysattrs then some (dev.SysattrValue a)
        else ((records.lookup dev.Devpath).getD (device.New dev.Devpath)).attrs.lookup a := by
  unfold refreshed
  simp only [mergeInto_lookup, ueventFromAttrs_attrs_lookup, attrsFromUdevDevice_lookup]
  by_cases ha : a = ueventAttr
  · simp [ha]
  · by_cases hmem : a ∈ dev.Sysattrs
    · simp [ha, hmem]
    · simp [ha, hmem]

theorem refreshed_uevent_lookup (records : GoMap Device) (dev : UdevDevice) (key : String) :
    (refreshed records dev).uevent.lookup key
      = ((ueventFromAttrs (attrsFromUdevDevice dev)).2.lookup key).orElse
          (fun _ =>
            ((records.lookup dev.Devpath).getD (device.New dev.Devpath)).uevent.lookup key) := by
  unfold refreshed
  simp only [mergeInto_lookup]

end devicemonitor

namespace devicemonitor

open strings device deviceevent

theorem step_lookup_self (m : UdevDeviceMonitor) (ev : Event × UdevDevice)
    (hacc : Accepted ev) (hwk : WellKeyed m.records) (hr : ev.1 ≠ Remove)
    (hpres : (m.records.lookup ev.2.Devpath).isSome = true ∨ ev.1 ≠ Unbind) :
    (m.step ev).records.lookup ev.2.Devpath = some (refreshed m.records ev.2) := by
  show (m.processEvent ev.1 ev.2).1.lookup ev.2.Devpath = _
  rw [processEvent_lookup m ev.1 ev.2 hacc hwk, if_pos rfl, if_pos ⟨hr, hpres⟩]

theorem step_lookup_other (m : UdevDeviceMonitor) (ev : Event × UdevDevice)
    (hacc : Accepted ev) (hwk : WellKeyed m.records) (p : String)
    (hp : ev.2.Devpath ≠ p) :
    (m.step ev).records.lookup p = m.records.lookup p := by
  show (m.processEvent ev.1 ev.2).1.lookup p = _
  rw [processEvent_lookup m ev.1 ev.2 hacc hwk, if_neg (fun h => hp h.symm)]

theorem wellKeyed_step (m : UdevDeviceMonitor) (ev : Event × UdevDevice)
    (hwk : WellKeyed m.records) : WellKeyed (m.step ev).records :=
  wellKeyed_processEvent m ev.1 ev.2 hwk

/-- A value held by the record of `p` stays while the events neither remove the
record nor carry a new value. -/
theorem run_keeps (f : Device → Option String) (c : UdevDevice → Option String)
    (hstep : ∀ records dev, f (refreshed records dev)
      = (c dev).orElse (fun _ =>
          f ((records.lookup dev.Devpath).getD (device.New dev.Devpath))))
    (p : String) (v : String) (evs : List (Event × UdevDevice)) :
    ∀ (m : UdevDeviceMonitor), WellKeyed m.records →
      (∀ ev ∈ evs, Accepted ev) →
      (∀ ev ∈ evs, ev.2.Devpath = p → ev.1 ≠ Remove) →
      (∀ ev ∈ evs, ev.2.Devpath = p → c ev.2 = none) →
      (∃ d, m.records.lookup p = some d ∧ f d = some v) →
      ∃ d, (m.run evs).records.lookup p = some d ∧ f d = some v := by
  induction evs with
  | nil => intro m _ _ _ _ h; exact h
  | cons ev rest ih =>
    intro m hwk hacc hnr hnc hd
    obtain ⟨d, hd, hv⟩ := hd
    rw [run_cons]
    apply ih (m.step ev) (wellKeyed_step m ev hwk)
      (fun e he => hacc e (List.mem_cons_of_mem _ he))
      (fun e he => hnr e (List.mem_cons_of_mem _ he))
      (fun e he => hnc e (List.mem_cons_of_mem _ he))
    have haccev := hacc ev (List.mem_cons_self _ _)
    by_cases hp : ev.2.Devpath = p
    · have hfound : (m.records.lookup ev.2.Devpath).isSome = true := by
        rw [hp, hd]; rfl
      refine ⟨refreshed m.records ev.2, ?_, ?_⟩
      · rw [← hp]
        exact step_lookup_self m ev haccev hwk (hnr ev (List.mem_cons_self _ _) hp)
          (Or.inl hfound)
      · rw [hstep, hnc ev (List.mem_cons_self _ _) hp, hp, hd]
        simpa using hv
    · exact ⟨d, by rw [step_lookup_other m ev haccev hwk p hp]; exact hd, hv⟩

/-- The value carried by an event whose record is retained and not removed
since is the value the record holds after the later events that carry none. -/
theorem run_carries (f : Device → Option String) (c : UdevDevice → Option String)
    (hstep : ∀ records dev, f (refreshed records dev)
      = (c dev).orElse (fun _ =>
          f ((records.lookup dev.Devpath).getD (device.New dev.Devpath))))
    (m : UdevDeviceMonitor) (hwk : WellKeyed m.records)
    (pre : List (Event × UdevDevice)) (ev : Event × UdevDevice)
    (post : List (Event × UdevDevice))
    (hacc : ∀ e ∈ pre ++ ev :: post, Accepted e)
    (hr : ev.1 ≠ Remove)
    (hpres : ((m.run pre).records.lookup ev.2.Devpath).isSome = true ∨ ev.1 ≠ Unbind)
    (hnr : ∀ e ∈ post, e.2.Devpath = ev.2.Devpath → e.1 ≠ Remove)
    (v : String) (hc : c ev.2 = some v)
    (hnc : ∀ e ∈ post, e.2.Devpath = ev.2.Devpath → c e.2 = none) :
    ∃ d, (m.run (pre ++ ev :: post)).records.lookup ev.2.Devpath = some d ∧
      f d = some v := by
  rw [run_append, run_cons]
  have hwk1 : WellKeyed (m.run pre).records := wellKeyed_run m pre hwk
  have haccev : Accepted ev := hacc ev (by simp)
  apply run_keeps f c hstep ev.2.Devpath v post ((m.run pre).step ev)
    (wellKeyed_step _ ev hwk1) (fun e he => hacc e (by simp [he])) hnr hnc
  refine ⟨refreshed (m.run pre).records ev.2,
    step_lookup_self (m.run pre) ev haccev hwk1 hr hpres, ?_⟩
  rw [hstep, hc]
  rfl

theorem attrs_step (a : String) (records : GoMap Device) (dev : UdevDevice) :
    (refreshed records dev).attrs.lookup a
      = (if a ≠ ueventAttr ∧ a ∈ dev.Sysattrs then some (dev.SysattrValue a)
          else none).orElse (fun _ =>
            ((records.lookup dev.Devpath).getD (device.New dev.Devpath)).attrs.lookup a) := by
  rw [refreshed_attrs_lookup]
  split_ifs <;> rfl

end devicemonitor

namespace devicemonitor

open strings device deviceevent

/-- **C9, as stated, fails.** With one callback registered and an empty store,
the accepted events `ADD` (view with the attribute `serial`), `REMOVE` and `ADD`
(view with the attribute `speed` only) on the devpath `/devices/usb1/1-1` are
emitted with `serial` bound to `A1` for the first two, and without `serial` for
the third: the record was deleted by the `REMOVE`. -/
theorem emitted_after_remove_lacks_attr :
    Accepted (deviceevent.Add, usbDevice "/devices/usb1/1-1" ["serial"] "A1") ∧
    Accepted (Remove, usbDevice "/devices/usb1/1-1" [] "") ∧
    Accepted (deviceevent.Add, usbDevice "/devices/usb1/1-1" ["speed"] "480") ∧
    (((UdevDeviceMonitor.mk [fun _ => none] ∅).trace
        [(deviceevent.Add, usbDevice "/devices/usb1/1-1" ["serial"] "A1"),
         (Remove, usbDevice "/devices/usb1/1-1" [] ""),
         (deviceevent.Add, usbDevice "/devices/usb1/1-1" ["speed"] "480")]).filterMap
          Effect.call?).map
        (fun c => (c.1, c.2.event, c.2.device.path, c.2.device.attrs.lookup "serial"))
      = [(0, "ADD", "/devices/usb1/1-1", some "A1"),
         (0, "REMOVE", "/devices/usb1/1-1", some "A1"),
         (0, "ADD", "/devices/usb1/1-1", none)] := by
  refine ⟨⟨by decide, rfl, rfl⟩, ⟨by decide, rfl, rfl⟩, ⟨by decide, rfl, rfl⟩, ?_⟩
  decide

/-- **C9, amended.** After any accepted events `evs` from a store filed under
its devpaths, the device emitted to every callback for an accepted event `last`
carries every attribute key other than `uevent`, and every uevent key, of the
udev view of `last`, with the value of that view. It also carries every such
key of the view of an earlier event `ev` on the same devpath, with the value of
that view, provided the record was retained at `ev` (`ev` is not a `REMOVE`, nor
an `UNBIND` arriving while the devpath had no record), no `REMOVE` for the
devpath came between `ev` and `last`, and no later event for the devpath up to
`last` carried the key. -/
theorem emitted_carries (m : UdevDeviceMonitor) (evs : List (Event × UdevDevice))
    (last : Event × UdevDevice) (hwk : WellKeyed m.records)
    (hacc : ∀ ev ∈ evs ++ [last], Accepted ev) :
    ((m.run evs).processEvent last.1 last.2).2.filterMap Effect.call?
      = (List.range m.callbacks.length).map
          (fun i => (i, deviceevent.New last.1 (refreshed (m.run evs).records last.2))) ∧
    (∀ a ∈ last.2.Sysattrs, a ≠ ueventAttr →
      (refreshed (m.run evs).records last.2).attrs.lookup a
        = some (last.2.SysattrValue a)) ∧
    (∀ key v, (ueventFromAttrs (attrsFromUdevDevice last.2)).2.lookup key = some v →
      (refreshed (m.run evs).records last.2).uevent.lookup key = some v) ∧
    (∀ pre ev post, evs = pre ++ ev :: post →
      ev.2.Devpath = last.2.Devpath →
      ev.1 ≠ Remove →
      (((m.run pre).records.lookup ev.2.Devpath).isSome = true ∨ ev.1 ≠ Unbind) →
      (∀ e ∈ post, e.2.Devpath = last.2.Devpath → e.1 ≠ Remove) →
      (∀ a ∈ ev.2.Sysattrs, a ≠ ueventAttr →
        (∀ e ∈ post ++ [last], e.2.Devpath = last.2.Devpath → a ∉ e.2.Sysattrs) →
        (refreshed (m.run evs).records last.2).attrs.lookup a
          = some (ev.2.SysattrValue a)) ∧
      (∀ key v, (ueventFromAttrs (attrsFromUdevDevice ev.2)).2.lookup key = some v →
        (∀ e ∈ post ++ [last], e.2.Devpath = last.2.Devpath →
          (ueventFromAttrs (attrsFromUdevDevice e.2)).2.lookup key = none) →
        (refreshed (m.run evs).records last.2).uevent.lookup key = some v)) := by
  have hlast : Accepted last := hacc last (by simp)
  refine ⟨?_, ?_, ?_, ?_⟩
  · rw [processEvent_effects _ _ _ hlast, runCallbacks_calls, List.range_eq_range',
      run_callbacks]
  · intro a ha hne
    rw [refreshed_attrs_lookup, if_pos ⟨hne, ha⟩]
  · intro key v hv
    rw [refreshed_uevent_lookup, hv]
    rfl
  · intro pre ev post hsplit hp hr hpres hnr
    have hacc2 : ∀ e ∈ pre ++ ev :: post, Accepted e := by
      intro e he
      apply hacc e
      rw [hsplit]
      exact List.mem_append_left _ he
    have hnr2 : ∀ e ∈ post, e.2.Devpath = ev.2.Devpath → e.1 ≠ Remove :=
      fun e he hd => hnr e he (hd.trans hp)
    constructor
    · intro a ha hne hlater
      have hc : (if a ≠ ueventAttr ∧ a ∈ ev.2.Sysattrs then some (ev.2.SysattrValue a)
          else none) = some (ev.2.SysattrValue a) := if_pos ⟨hne, ha⟩
      obtain ⟨d, hd, hv⟩ := run_carries (fun d => d.attrs.lookup a)
        (fun dev => if a ≠ ueventAttr ∧ a ∈ dev.Sysattrs then some (dev.SysattrValue a)
          else none)
        (attrs_step a) m hwk pre ev post hacc2 hr hpres hnr2 _ hc
        (fun e he hd => by
          have := hlater e (List.mem_append_left _ he) (hd.trans hp)
          simp [this])
      have hnot : a ∉ last.2.Sysattrs := hlater last (by simp) rfl
      rw [refreshed_attrs_lookup, if_neg (fun h => hnot h.2), hsplit, ← hp, hd]
      exact hv
    · intro key v hv hlater
      obtain ⟨d, hd, hv2⟩ := run_carries (fun d => d.uevent.lookup key)
        (fun dev => (ueventFromAttrs (attrsFromUdevDevice dev)).2.lookup key)
        (refreshed_uevent_lookup · · key) m hwk pre ev post hacc2 hr hpres hnr2 v hv
        (fun e he hd => hlater e (List.mem_append_left _ he) (hd.trans hp))
      have hnone := hlater last (by simp) rfl
      rw [refreshed_uevent_lookup, hnone, hsplit, ← hp, hd]
      exact hv2

/-- The `REMOVE` that follows `ADD` (view with `serial`) and `UNBIND` on one
devpath is emitted with the `serial` of the `ADD`. -/
theorem emitted_carries_witness :
    WellKeyed (∅ : GoMap Device) ∧
    (refreshed
      ((UdevDeviceMonitor.mk [fun _ => none] ∅).run
        [(deviceevent.Add, usbDevice "/devices/usb1/1-1" ["serial"] "A1"),
         (Unbind, usbDevice "/devices/usb1/1-1" [] "")]).records
      (usbDevice "/devices/usb1/1-1" ["speed"] "480")).attrs.lookup "serial"
      = some "A1" :=
  ⟨wellKeyed_empty,
    ((emitted_carries (UdevDeviceMonitor.mk [fun _ => none] ∅)
      [(deviceevent.Add, usbDevice "/devices/usb1/1-1" ["serial"] "A1"),
       (Unbind, usbDevice "/devices/usb1/1-1" [] "")]
      (Remove, usbDevice "/devices/usb1/1-1" ["speed"] "480") wellKeyed_empty
      (by
        intro ev hev
        simp only [List.cons_append, List.nil_append, List.mem_cons, List.mem_singleton,
          List.not_mem_nil, or_false] at hev
        rcases hev with rfl | rfl | rfl <;> exact ⟨by decide, rfl, rfl⟩)).2.2.2
      [] (deviceevent.Add, usbDevice "/devices/usb1/1-1" ["serial"] "A1")
      [(Unbind, usbDevice "/devices/usb1/1-1" [] "")] rfl rfl (by decide)
      (Or.inr (by decide))
      (by
        intro e he _
        simp only [List.mem_singleton] at he
        rw [he]
        decide)).1 "serial" (by decide) (by decide)
      (by
        intro e he _
        simp only [List.cons_append, List.nil_append, List.mem_cons, List.mem_singleton,
          List.not_mem_nil, or_false] at he
        rcases he with rfl | rfl <;> decide)⟩

end devicemonitor

namespace devicemonitor

open strings device deviceevent

theorem refreshed_no_raw_uevent (records : GoMap Device) (dev : UdevDevice)
    (hno : NoRawUevent records) :
    (refreshed records dev).attrs.lookup ueventAttr = none := by
  rw [refreshed_attrs_lookup, if_neg (fun h => h.1 rfl)]
  cases h : records.lookup dev.Devpath with
  | none => simp [device.New]
  | some d => simpa using hno _ _ h

theorem noRawUevent_step (m : UdevDeviceMonitor) (ev : Event × UdevDevice)
    (hwk : WellKeyed m.records) (hno : NoRawUevent m.records) :
    NoRawUevent (m.step ev).records := by
  by_cases hacc : Accepted ev
  · intro q d hq
    change (m.processEvent ev.1 ev.2).1.lookup q = some d at hq
    rw [processEvent_lookup m ev.1 ev.2 hacc hwk q] at hq
    by_cases hqp : q = ev.2.Devpath
    · rw [if_pos hqp] at hq
      split_ifs at hq
      · cases hq
        exact refreshed_no_raw_uevent _ _ hno
    · rw [if_neg hqp] at hq
      exact hno _ _ hq
  · have h : (m.step ev).records = m.records := (processEvent_not_accepted m ev.1 ev.2 hacc).1
    rw [h]
    exact hno

theorem noRawUevent_run (evs : List (Event × UdevDevice)) :
    ∀ (m : UdevDeviceMonitor), WellKeyed m.records → NoRawUevent m.records →
      NoRawUevent (m.run evs).records ∧
      ∀ c ∈ (m.trace evs).filterMap Effect.call?,
        c.2.device.attrs.lookup ueventAttr = none := by
  induction evs with
  | nil =>
    intro m _ hno
    exact ⟨hno, by simp [UdevDeviceMonitor.trace]⟩
  | cons ev rest ih =>
    intro m hwk hno
    obtain ⟨h1, h2⟩ := ih (m.step ev) (wellKeyed_step m ev hwk) (noRawUevent_step m ev hwk hno)
    refine ⟨h1, ?_⟩
    intro c hc
    simp only [UdevDeviceMonitor.trace, List.filterMap_append, List.mem_append] at hc
    rcases hc with hc | hc
    · by_cases hacc : Accepted ev
      · rw [processEvent_effects m ev.1 ev.2 hacc, runCallbacks_calls] at hc
        simp only [List.mem_map] at hc
        obtain ⟨i, _, rfl⟩ := hc
        exact refreshed_no_raw_uevent _ _ hno
      · rw [(processEvent_not_accepted m ev.1 ev.2 hacc).2] at hc
        cases hc
    · exact h2 c hc

/-- **C10.** Whatever events the monitor processes from the empty store it
starts with, no device of the record store and no device emitted to a callback
has the key `uevent` among its `attrs`; `ueventFromAttrs` leaves an attribute
map without that key and with every other entry unchanged. -/
theorem attrs_never_hold_uevent (callbacks : List (DeviceEvent → Option String))
    (evs : List (Event × UdevDevice)) :
    (∀ p d, ((UdevDeviceMonitor.mk callbacks ∅).run evs).records.lookup p = some d →
      d.attrs.lookup ueventAttr = none) ∧
    (∀ c ∈ ((UdevDeviceMonitor.mk callbacks ∅).trace evs).filterMap Effect.call?,
      c.2.device.attrs.lookup ueventAttr = none) ∧
    (∀ attrs : GoMap String,
      (ueventFromAttrs attrs).1.lookup ueventAttr = none ∧
      ∀ k, k ≠ ueventAttr → (ueventFromAttrs attrs).1.lookup k = attrs.lookup k) := by
  have hno : NoRawUevent (∅ : GoMap Device) := by
    intro p d h
    simp at h
  have h := noRawUevent_run evs (UdevDeviceMonitor.mk callbacks ∅) wellKeyed_empty hno
  refine ⟨h.1, h.2, ?_⟩
  intro attrs
  constructor
  · rw [ueventFromAttrs_attrs_lookup, if_pos rfl]
  · intro k hk
    rw [ueventFromAttrs_attrs_lookup, if_neg hk]

end devicemonitor

namespace devicemonitor

open strings device deviceevent

theorem actionToEvent_unknown (s : String)
    (h : s ∉ ["add", "remove", "bind", "unbind", "change", "move"]) :
    actionToEvent s = (Unknown, some ("Unknown event type: \x27" ++ s ++ "\x27")) := by
  simp only [List.mem_cons, List.mem_singleton, List.not_mem_nil, or_false, not_or] at h
  obtain ⟨h1, h2, h3, h4, h5, h6⟩ := h
  simp [actionToEvent, h1, h2, h3, h4, h5, h6]

theorem processEvent_unknown (m : UdevDeviceMonitor) (dev : UdevDevice) :
    m.processEvent Unknown dev = (m.records, []) := by
  simp [UdevDeviceMonitor.processEvent]

/-- **C11.** `actionToEvent` maps `add`, `remove`, `bind`, `unbind`, `change` and
`move` to `ADD`, `REMOVE`, `BIND`, `UNBIND`, `CHANGE` and `MOVE`, and every other
string to `UNKNOWN` (with an error for the message pipe). `processEvent` on
`UNKNOWN` calls no callback and returns the record store as it was, so a device
of the live stream with an unrecognized action changes nothing and reaches no
callback. -/
theorem actionToEvent_table (s : String) :
    (actionToEvent "add").1 = deviceevent.Add ∧
    (actionToEvent "remove").1 = Remove ∧
    (actionToEvent "bind").1 = deviceevent.Bind ∧
    (actionToEvent "unbind").1 = Unbind ∧
    (actionToEvent "change").1 = Change ∧
    (actionToEvent "move").1 = Move ∧
    (s ∉ ["add", "remove", "bind", "unbind", "change", "move"] →
      (actionToEvent s).1 = Unknown ∧ (actionToEvent s).2.isSome = true) ∧
    (s ∈ ["add", "remove", "bind", "unbind", "change", "move"] →
      (actionToEvent s).1 ≠ Unknown ∧ (actionToEvent s).2 = none) ∧
    (∀ (m : UdevDeviceMonitor) (dev : UdevDevice),
      m.processEvent Unknown dev = (m.records, [])) ∧
    (∀ (m : UdevDeviceMonitor) (dev : UdevDevice),
      dev.Action ∉ ["add", "remove", "bind", "unbind", "change", "move"] →
      (m.onDevice dev).1 = m.records ∧
      (m.onDevice dev).2.filterMap Effect.call? = []) := by
  refine ⟨rfl, rfl, rfl, rfl, rfl, rfl, ?_, ?_, processEvent_unknown, ?_⟩
  · intro h
    rw [actionToEvent_unknown s h]
    exact ⟨rfl, rfl⟩
  · intro h
    simp only [List.mem_cons, List.mem_singleton, List.not_mem_nil, or_false] at h
    rcases h with rfl | rfl | rfl | rfl | rfl | rfl <;> exact ⟨by decide, rfl⟩
  · intro m dev h
    simp [UdevDeviceMonitor.onDevice, actionToEvent_unknown dev.Action h,
      processEvent_unknown, Effect.call?]

end devicemonitor

namespace engine

/-- **C12.** `Engine.Start` does not surface a failed start: when the device
monitor's `Start` returns an error (and likewise for the updater and the config
monitor, whatever the three return), `Engine.Start` still starts the three
components in order, sets `started` and returns nil. -/
theorem Start_returns_nil_on_failed_start :
    (Engine.Start { started := false, cleanups := 1 }
      { actionRegistryUpdater := none, confMonitor := none,
        deviceMonitor := some "udev: could not create the netlink monitor" })
      = ({ started := true, cleanups := 1 },
         [Call.actionRegistryUpdaterStart, Call.confMonitorStart, Call.deviceMonitorStart],
         none) ∧
    (∀ (e : Engine) (results : StartResults),
      (e.Start results).2.2 = none ∧ (e.Start results).1.started = true) := by
  exact ⟨rfl, fun e results => ⟨rfl, rfl⟩⟩

end engine

namespace action

open strings deviceevent

/-- **C13.** `NewActionFromFile` does not discard the empty shadow values of the
`exec` key. For a rule file whose `exec` values are the empty string and
`/bin/echo hi`, the rule's `subsystems` are filtered (`usb` alone) while its
`execs` keep the empty string, and `Do` hands the empty command line to the
executor. In general `execs` is the list of shadow values as it is, while
`loadSliceFromShadow` keeps exactly the non-empty values, in order. -/
theorem execs_keep_empty_shadow_values :
    (∃ a, NewActionFromFile (fun _ => .ok shadowedExecFile) "/etc/onplugd.d/m.conf" = .ok a ∧
      a.subsystems = ["usb"] ∧
      a.execs = ["", "/bin/echo hi"] ∧
      (a.Do ⟨id, id⟩ [] (deviceevent.New Coldplug (device.New "/devices/usb1"))).map
        (fun call => call.cmdline) = ["", "/bin/echo hi"]) ∧
    (∀ (ShadowLoad : String → Except String IniFile) (fullpath : String) (conf : IniFile)
      (a : Action), ShadowLoad fullpath = .ok conf →
      NewActionFromFile ShadowLoad fullpath = .ok a →
      a.execs = conf.exec ∧
      a.paths = conf.path.filter (fun item => item ≠ "") ∧
      a.subsystems = conf.subsystem.filter (fun item => item ≠ "") ∧
      a.types = conf.type.filter (fun item => item ≠ "") ∧
      a.drivers = conf.driver.filter (fun item => item ≠ "")) := by
  constructor
  · refine ⟨{ name := "m.conf", events := ["COLDPLUG", "ADD"], paths := [],
              subsystems := ["usb"], types := [], drivers := [], attrs := ∅, uevents := ∅,
              execs := ["", "/bin/echo hi"] }, rfl, rfl, rfl, rfl⟩
  · intro ShadowLoad fullpath conf a hload ha
    unfold NewActionFromFile at ha
    rw [hload] at ha
    simp only at ha
    rcases h1 : loadMapFromShadow ∅ conf.attr with ⟨m1, _ | e1⟩
    · rcases h2 : loadMapFromShadow ∅ conf.uevent with ⟨m2, _ | e2⟩
      · rw [h1, h2] at ha
        simp only [Except.ok.injEq] at ha
        rw [← ha]
        exact ⟨rfl, rfl, rfl, rfl, rfl⟩
      · rw [h1, h2] at ha
        simp at ha
    · rw [h1] at ha
      simp at ha

end action

namespace utils

open strings

theorem fromHexChar_lt (c : Char) (d : Nat) (h : hex.fromHexChar c = some d) : d < 16 := by
  unfold hex.fromHexChar at h
  split_ifs at h <;> simp at h <;> omega

theorem fromHexChar_ascii (c : Char) (d : Nat) (h : hex.fromHexChar c = some d) :
    c.utf8Size = 1 := by
  have hc : c.toNat ≤ 102 := by
    unfold hex.fromHexChar at h
    split_ifs at h <;> omega
  unfold Char.utf8Size
  have : c.val ≤ 0x7F := by
    show c.val.toNat ≤ 127
    have : c.val.toNat = c.toNat := rfl
    omega
  simp [this]

theorem isHexDigit_iff (c : Char) : isHexDigit c = true ↔ ∃ d, hex.fromHexChar c = some d := by
  unfold isHexDigit
  exact Option.isSome_iff_exists

theorem utf8ByteSize_of_size_one (cs : List Char) (h : ∀ c ∈ cs, c.utf8Size = 1) :
    String.utf8ByteSize ⟨cs⟩ = cs.length := by
  induction cs with
  | nil => rfl
  | cons c cs ih =>
    have h1 := h c (List.mem_cons_self _ _)
    have h2 := ih (fun x hx => h x (List.mem_cons_of_mem _ hx))
    simp only [String.utf8ByteSize, String.utf8ByteSize.go, List.length_cons] at h2 ⊢
    omega

theorem utf8ByteSize_of_hex (t : String) (h : ∀ c ∈ t.data, isHexDigit c = true) :
    t.utf8ByteSize = t.data.length := by
  rcases t with ⟨cs⟩
  apply utf8ByteSize_of_size_one
  intro c hc
  obtain ⟨d, hd⟩ := (isHexDigit_iff c).1 (h c hc)
  exact fromHexChar_ascii c d hd

/-- The body of `Hex2uint16` after trimming and padding. -/
theorem Hex2uint16_of_hex (s : String) (h : ∀ c ∈ (TrimSpace s).data, isHexDigit c = true) :
    Hex2uint16 s =
      fromDecoded (hex.decodeChars
          (if (TrimSpace s).data.length % 2 = 1 then ('0' :: (TrimSpace s).data)
            else (TrimSpace s).data)) := by
  unfold Hex2uint16 hex.DecodeString
  simp only [utf8ByteSize_of_hex _ h]
  split_ifs <;> rfl

theorem decodeChars_none_of_not_hex (n : Nat) :
    ∀ l : List Char, l.length ≤ n → (∃ c ∈ l, hex.fromHexChar c = none) →
      hex.decodeChars l = none := by
  induction n using Nat.strong_induction_on with
  | _ n ih =>
    intro l hlen hbad
    match l, hlen, hbad with
    | [], _, hbad => simp at hbad
    | [_], _, _ => rfl
    | p :: q :: rest, hlen, hbad =>
      simp only [hex.decodeChars]
      cases hp : hex.fromHexChar p with
      | none => rfl
      | some a =>
        cases hq : hex.fromHexChar q with
        | none => rfl
        | some b =>
          simp only [List.mem_cons, exists_eq_or_imp, hp, hq, reduceCtorEq, false_or] at hbad
          have := ih rest.length (by simp at hlen; omega) rest (le_refl _) hbad
          simp [this]

theorem Hex2uint16_of_not_hex (s : String)
    (h : ∃ c ∈ (TrimSpace s).data, isHexDigit c = false) : Hex2uint16 s = 0 := by
  obtain ⟨c, hc, hno⟩ := h
  have hnone : hex.fromHexChar c = none := by
    unfold isHexDigit at hno
    cases hx : hex.fromHexChar c with
    | none => rfl
    | some d => rw [hx] at hno; cases hno
  unfold Hex2uint16 hex.DecodeString
  have key : ∀ l : List Char, c ∈ l → hex.decodeChars l = none :=
    fun l hl => decodeChars_none_of_not_hex l.length l (le_refl _) ⟨c, hl, hnone⟩
  simp only
  split_ifs
  · rw [key _ (by simp [hc])]
    rfl
  · rw [key _ hc]
    rfl

end utils

namespace utils

open strings

theorem decodeChars_of_hex (n : Nat) :
    ∀ l : List Char, l.length = 2 * n → (∀ c ∈ l, isHexDigit c = true) →
      ∃ bytes, hex.decodeChars l = some bytes := by
  induction n with
  | zero =>
    intro l hl _
    have : l = [] := List.length_eq_zero.1 (by omega)
    subst this
    exact ⟨[], rfl⟩
  | succ n ih =>
    intro l hl hhex
    match l, hl, hhex with
    | [], hl, _ => simp at hl
    | [_], hl, _ => simp at hl; omega
    | p :: q :: rest, hl, hhex =>
      obtain ⟨a, ha⟩ := (isHexDigit_iff p).1 (hhex p (by simp))
      obtain ⟨b, hb⟩ := (isHexDigit_iff q).1 (hhex q (by simp))
      obtain ⟨bytes, hbytes⟩ := ih rest (by simp at hl; omega)
        (fun c hc => hhex c (by simp [hc]))
      exact ⟨(a * 16 + b) :: bytes, by simp [hex.decodeChars, ha, hb, hbytes]⟩

/-- Two hexadecimal digits decode to one byte, their value. -/
theorem fromDecoded_two (c1 c2 : Char) (h1 : isHexDigit c1 = true)
    (h2 : isHexDigit c2 = true) :
    fromDecoded (hex.decodeChars [c1, c2]) = hexValue [c1, c2] := by
  obtain ⟨d1, e1⟩ := (isHexDigit_iff c1).1 h1
  obtain ⟨d2, e2⟩ := (isHexDigit_iff c2).1 h2
  have b1 := fromHexChar_lt c1 d1 e1
  have b2 := fromHexChar_lt c2 d2 e2
  simp only [hex.decodeChars, e1, e2, Option.map_some', fromDecoded, hexValue,
    List.foldl_cons, List.foldl_nil, Option.getD_some]
  omega

/-- Four or more hexadecimal digits, an even number of them, decode to bytes of
which the first two are used: the value of the first four digits. -/
theorem fromDecoded_four (c1 c2 c3 c4 : Char) (rest : List Char)
    (hhex : ∀ c ∈ c1 :: c2 :: c3 :: c4 :: rest, isHexDigit c = true)
    (heven : rest.length % 2 = 0) :
    fromDecoded (hex.decodeChars (c1 :: c2 :: c3 :: c4 :: rest))
      = hexValue [c1, c2, c3, c4] := by
  obtain ⟨d1, e1⟩ := (isHexDigit_iff c1).1 (hhex c1 (by simp))
  obtain ⟨d2, e2⟩ := (isHexDigit_iff c2).1 (hhex c2 (by simp))
  obtain ⟨d3, e3⟩ := (isHexDigit_iff c3).1 (hhex c3 (by simp))
  obtain ⟨d4, e4⟩ := (isHexDigit_iff c4).1 (hhex c4 (by simp))
  have b1 := fromHexChar_lt c1 d1 e1
  have b2 := fromHexChar_lt c2 d2 e2
  have b3 := fromHexChar_lt c3 d3 e3
  have b4 := fromHexChar_lt c4 d4 e4
  obtain ⟨bytes, hbytes⟩ := decodeChars_of_hex (rest.length / 2) rest (by omega)
    (fun c hc => hhex c (by simp [hc]))
  simp only [hex.decodeChars, e1, e2, e3, e4, hbytes, Option.map_some', fromDecoded, hexValue,
    List.foldl_cons, List.foldl_nil, Option.getD_some]
  omega

theorem hexValue_zero_cons (l : List Char) : hexValue ('0' :: l) = hexValue l := by
  simp only [hexValue, List.foldl_cons]
  rfl

theorem isHexDigit_zero : isHexDigit '0' = true := by decide

end utils

namespace utils

open strings

/-- **C14.** When the trimmed string is one to four hexadecimal digits,
`Hex2uint16` is the number they denote; when the trimmed string has a character
that is not a hexadecimal digit, and for the empty string, it is `0`. The
values of the test table are those the function returns. -/
theorem Hex2uint16_value (s : String) :
    ((∀ c ∈ (TrimSpace s).data, isHexDigit c = true) →
      1 ≤ (TrimSpace s).length → (TrimSpace s).length ≤ 4 →
      Hex2uint16 s = hexValue (TrimSpace s).data) ∧
    ((∃ c ∈ (TrimSpace s).data, isHexDigit c = false) → Hex2uint16 s = 0) ∧
    Hex2uint16 "" = 0 ∧
    Hex2uint16 "X" = 0 ∧
    Hex2uint16 "A" = 10 ∧
    Hex2uint16 "  01  " = 1 ∧
    Hex2uint16 "ff" = 255 ∧
    Hex2uint16 "ff11" = 65297 := by
  refine ⟨?_, Hex2uint16_of_not_hex s, by decide, by decide, by decide, by decide,
    by decide, by decide⟩
  intro hhex hlo hhi
  rw [Hex2uint16_of_hex s hhex]
  simp only [String.length] at hlo hhi
  generalize (TrimSpace s).data = l at hhex hlo hhi
  match l, hhex, hlo, hhi with
  | [c1], hhex, _, _ =>
    rw [if_pos (by simp), ← hexValue_zero_cons [c1]]
    exact fromDecoded_two '0' c1 isHexDigit_zero (hhex c1 (by simp))
  | [c1, c2], hhex, _, _ =>
    rw [if_neg (by simp)]
    exact fromDecoded_two c1 c2 (hhex c1 (by simp)) (hhex c2 (by simp))
  | [c1, c2, c3], hhex, _, _ =>
    rw [if_pos (by simp), ← hexValue_zero_cons [c1, c2, c3]]
    exact fromDecoded_four '0' c1 c2 c3 []
      (fun c hc => by
        rcases List.mem_cons.1 hc with rfl | hc
        · exact isHexDigit_zero
        · exact hhex c hc) rfl
  | [c1, c2, c3, c4], hhex, _, _ =>
    rw [if_neg (by simp)]
    exact fromDecoded_four c1 c2 c3 c4 [] hhex rfl
  | _ :: _ :: _ :: _ :: _ :: _, _, _, hhi => simp at hhi

/-- **C15, as stated, fails.** The trimmed form of `12345` is five hexadecimal
digits; `Hex2uint16` returns `0x0123`, while the leftmost four digits denote
`0x1234`. -/
theorem Hex2uint16_odd_length_example :
    (∀ c ∈ (TrimSpace "12345").data, isHexDigit c = true) ∧
    (TrimSpace "12345").length = 5 ∧
    Hex2uint16 "12345" = 0x0123 ∧
    hexValue ((TrimSpace "12345").data.take 4) = 0x1234 := by
  decide

/-- **C15, amended.** When the trimmed string is five or more hexadecimal
digits, `Hex2uint16` is the number denoted by its leftmost four digits if the
number of digits is even, and by its leftmost three digits if it is odd (the
string is padded with a leading `0` before the first two bytes are taken). -/
theorem Hex2uint16_long (s : String)
    (hhex : ∀ c ∈ (TrimSpace s).data, isHexDigit c = true)
    (hlen : 5 ≤ (TrimSpace s).length) :
    ((TrimSpace s).length % 2 = 0 →
      Hex2uint16 s = hexValue ((TrimSpace s).data.take 4)) ∧
    ((TrimSpace s).length % 2 = 1 →
      Hex2uint16 s = hexValue ((TrimSpace s).data.take 3)) := by
  rw [Hex2uint16_of_hex s hhex]
  simp only [String.length] at hlen ⊢
  generalize (TrimSpace s).data = l at hhex hlen
  match l, hhex, hlen with
  | c1 :: c2 :: c3 :: c4 :: c5 :: rest, hhex, _ =>
    constructor
    · intro heven
      rw [if_neg (by omega)]
      exact fromDecoded_four c1 c2 c3 c4 (c5 :: rest) hhex
        (by simp only [List.length_cons] at heven ⊢; omega)
    · intro hodd
      rw [if_pos hodd]
      show _ = hexValue [c1, c2, c3]
      rw [← hexValue_zero_cons [c1, c2, c3]]
      exact fromDecoded_four '0' c1 c2 c3 (c4 :: c5 :: rest)
        (fun c hc => by
          rcases List.mem_cons.1 hc with rfl | hc
          · exact isHexDigit_zero
          · exact hhex c hc)
        (by simp only [List.length_cons] at hodd ⊢; omega)
  | [], _, hlen => simp at hlen
  | [_], _, hlen => simp at hlen
  | [_, _], _, hlen => simp at hlen
  | [_, _, _], _, hlen => simp at hlen
  | [_, _, _, _], _, hlen => simp at hlen

/-- The string `12345` between blanks: five digits, an odd number, and the
result is the value `0x0123` of the leftmost three. -/
theorem Hex2uint16_long_witness :
    (∀ c ∈ (TrimSpace " 12345 ").data, isHexDigit c = true) ∧
    5 ≤ (TrimSpace " 12345 ").length ∧
    Hex2uint16 " 12345 " = hexValue ((TrimSpace " 12345 ").data.take 3) ∧
    hexValue ((TrimSpace " 12345 ").data.take 3) = 0x0123 :=
  ⟨by decide, by decide,
    (Hex2uint16_long " 12345 " (by decide) (by decide)).2 (by decide), by decide⟩

end utils

namespace utils

open strings

theorem TrimSuffix_append (x ending : String) : TrimSuffix (x ++ ending) ending = x := by
  unfold TrimSuffix HasSuffix
  have hs : ending.data.isSuffixOf (x ++ ending).data = true := by
    rw [List.isSuffixOf_iff_suffix, String.data_append]
    exact List.suffix_append _ _
  rw [if_pos hs]
  apply String.ext
  simp [String.data_append]

theorem TrimSuffix_of_not_suffix (s ending : String) (h : HasSuffix s ending = false) :
    TrimSuffix s ending = s := by
  unfold TrimSuffix
  simp [h]

/-- **C16.** The home directory is `HOME` when that variable is non-empty, and
`h` is the home directory without one trailing `/`. Then `Expand("~") = h`,
`Expand("~/" + r) = h + "/" + r` for every `r`, and `Expand` returns every path
that is neither `~` nor starts with `~/` as it is, among them the empty path,
`/a/b/c` and `~user/x`. -/
theorem Expand_tilde (HOME : String) (userCurrent : Except String String) :
    (HOME ≠ "" → getHomeDir HOME userCurrent = HOME) ∧
    (∀ x, getHomeDir HOME userCurrent = x ++ "/" →
      TrimSuffix (getHomeDir HOME userCurrent) "/" = x) ∧
    (HasSuffix (getHomeDir HOME userCurrent) "/" = false →
      TrimSuffix (getHomeDir HOME userCurrent) "/" = getHomeDir HOME userCurrent) ∧
    Expand HOME userCurrent "~" = TrimSuffix (getHomeDir HOME userCurrent) "/" ∧
    (∀ r, Expand HOME userCurrent ("~/" ++ r)
      = TrimSuffix (getHomeDir HOME userCurrent) "/" ++ "/" ++ r) ∧
    (∀ path, path ≠ "~" → HasPrefix path "~/" = false →
      Expand HOME userCurrent path = path) ∧
    Expand HOME userCurrent "" = "" ∧
    Expand HOME userCurrent "/a/b/c" = "/a/b/c" ∧
    Expand HOME userCurrent "~user/x" = "~user/x" ∧
    Expand "/home/test" userCurrent "~" = "/home/test" ∧
    Expand "/home/test" userCurrent "~/test" = "/home/test/test" ∧
    Expand "/home/test/" userCurrent "~/test" = "/home/test/test" := by
  have hother : ∀ path, path ≠ "~" → HasPrefix path "~/" = false →
      Expand HOME userCurrent path = path := by
    intro path h1 h2
    unfold Expand
    simp [h1, h2]
  refine ⟨?_, ?_, TrimSuffix_of_not_suffix _ _, ?_, ?_, hother, ?_, ?_, ?_, rfl, rfl, rfl⟩
  · intro h
    simp [getHomeDir, h]
  · intro x hx
    rw [hx]
    exact TrimSuffix_append x "/"
  · unfold Expand
    simp only [true_or, if_true]
    apply String.ext
    simp [String.data_append, TrimPrefix, HasPrefix]
  · intro r
    unfold Expand
    have hp : HasPrefix ("~/" ++ r) "~/" = true := by
      simp [HasPrefix, String.data_append]
    simp only [hp, or_true, if_true]
    apply String.ext
    simp [String.data_append, TrimPrefix, HasPrefix]
  · exact hother "" (by decide) (by decide)
  · exact hother "/a/b/c" (by decide) (by decide)
  · exact hother "~user/x" (by decide) (by decide)

end utils

namespace strings

theorem cut_eq_some_iff (sep : Char) (s a b : List Char) :
    cut sep s = some (a, b) ↔ s = a ++ sep :: b ∧ sep ∉ a := by
  induction s generalizing a with
  | nil => simp [cut]
  | cons c cs ih =>
    by_cases h : c = sep
    · subst h
      simp only [cut, if_true, Option.some.injEq, Prod.mk.injEq]
      constructor
      · rintro ⟨rfl, rfl⟩
        simp
      · rintro ⟨h1, h2⟩
        cases a with
        | nil => simpa using h1
        | cons x xs =>
          simp only [List.cons_append, List.cons.injEq] at h1
          exact absurd (by simp [h1.1]) h2
    · simp only [cut, if_neg h]
      cases hc : cut sep cs with
      | none =>
        simp only [Option.map_none', reduceCtorEq, false_iff, not_and, not_not]
        intro h1
        cases a with
        | nil =>
          simp only [List.nil_append, List.cons.injEq] at h1
          exact absurd h1.1 h
        | cons x xs =>
          simp only [List.cons_append, List.cons.injEq] at h1
          have hmem : sep ∈ cs := by rw [h1.2]; simp
          exact absurd hmem ((cut_eq_none_iff sep cs).1 hc)
      | some p =>
        rcases p with ⟨a2, b2⟩
        simp only [Option.map_some', Option.some.injEq, Prod.mk.injEq]
        have ih2 := ih a2
        constructor
        · rintro ⟨rfl, rfl⟩
          have := (ih a2).1 hc
          refine ⟨by simp [this.1], ?_⟩
          simp only [List.mem_cons, not_or]
          exact ⟨fun e => h e.symm, this.2⟩
        · rintro ⟨h1, h2⟩
          cases a with
          | nil =>
            simp only [List.nil_append, List.cons.injEq] at h1
            exact absurd h1.1 h
          | cons x xs =>
            simp only [List.cons_append, List.cons.injEq] at h1
            simp only [List.mem_cons, not_or] at h2
            have := (ih xs).2 ⟨h1.2, h2.2⟩
            rw [hc] at this
            simp only [Option.some.injEq, Prod.mk.injEq] at this
            exact ⟨by rw [h1.1, this.1], this.2⟩

end strings

namespace devicemonitor

open strings device deviceevent

theorem ueventLines_cons (uevents : GoMap String) (line : String) (rest : List String) :
    ueventLines uevents (line :: rest)
      = ueventLines
          (match lineEntry line with
           | none => uevents
           | some (k, v) => uevents.insert k v) rest := by
  rw [ueventLines]
  by_cases hempty : TrimSpace line = ""
  · rw [if_pos hempty]
    simp [lineEntry, hempty, cut]
  · rw [if_neg hempty]
    by_cases hmem : '=' ∈ (TrimSpace line).data
    · obtain ⟨a, b, hcut, hsplit⟩ := SplitN_two_of_mem (TrimSpace line) '=' hmem
      rw [hsplit]
      simp [lineEntry, hcut]
    · rw [SplitN_two_of_not_mem _ _ hmem]
      simp [lineEntry, (cut_eq_none_iff _ _).2 hmem]

theorem ueventLines_lookup (lines : List String) :
    ∀ (uevents : GoMap String) (k v : String),
      (ueventLines uevents lines).lookup k = some v ↔
        (∃ pre line post, lines = pre ++ line :: post ∧ lineEntry line = some (k, v) ∧
          ∀ l ∈ post, ∀ v2, lineEntry l ≠ some (k, v2)) ∨
        ((∀ l ∈ lines, ∀ v2, lineEntry l ≠ some (k, v2)) ∧ uevents.lookup k = some v) := by
  induction lines with
  | nil =>
    intro uevents k v
    simp [ueventLines]
  | cons line rest ih =>
    intro uevents k v
    rw [ueventLines_cons, ih]
    constructor
    · rintro (⟨pre, l, post, hsplit, hl, hpost⟩ | ⟨hrest, hlook⟩)
      · exact Or.inl ⟨line :: pre, l, post, by rw [hsplit]; rfl, hl, hpost⟩
      · cases hline : lineEntry line with
        | none =>
          rw [hline] at hlook
          refine Or.inr ⟨?_, hlook⟩
          intro l hl v2
          rcases List.mem_cons.1 hl with rfl | hl
          · rw [hline]; simp
          · exact hrest l hl v2
        | some kv =>
          rcases kv with ⟨k0, v0⟩
          rw [hline] at hlook
          by_cases hk : k = k0
          · subst hk
            simp only [AList.lookup_insert, Option.some.injEq] at hlook
            subst hlook
            exact Or.inl ⟨[], line, rest, rfl, hline, hrest⟩
          · simp only [AList.lookup_insert_ne hk] at hlook
            refine Or.inr ⟨?_, hlook⟩
            intro l hl v2
            rcases List.mem_cons.1 hl with rfl | hl
            · rw [hline]
              simp only [ne_eq, Option.some.injEq, Prod.mk.injEq, not_and]
              intro h
              exact absurd h.symm hk
            · exact hrest l hl v2
    · rintro (⟨pre, l, post, hsplit, hl, hpost⟩ | ⟨hall, hlook⟩)
      · cases pre with
        | nil =>
          simp only [List.nil_append, List.cons.injEq] at hsplit
          obtain ⟨rfl, rfl⟩ := hsplit
          refine Or.inr ⟨hpost, ?_⟩
          rw [hl]
          exact AList.lookup_insert _
        | cons x pre2 =>
          simp only [List.cons_append, List.cons.injEq] at hsplit
          exact Or.inl ⟨pre2, l, post, hsplit.2, hl, hpost⟩
      · refine Or.inr ⟨fun l hl => hall l (List.mem_cons_of_mem _ hl), ?_⟩
        have hline := hall line (List.mem_cons_self _ _)
        cases hx : lineEntry line with
        | none => exact hlook
        | some kv =>
          rcases kv with ⟨k0, v0⟩
          have hk : k ≠ k0 := by
            intro h
            subst h
            exact hline v0 hx
          simp only [AList.lookup_insert_ne hk]
          exact hlook

/-- **C17.** For an attribute map with the key `uevent` and payload `u`, the
mapping returned by `ueventFromAttrs` binds `k` to `v` exactly when, among the
lines of `u` that stand for an entry (trimmed, they contain `=`), the last one
whose key is `k` has the value `v`; a line stands for the entry whose key is
the trimmed text before its first `=` and whose value is the trimmed text after
it, and for none when, trimmed, it is empty or has no `=`. Without the key
`uevent` the mapping is empty and the attribute map is returned as it is. -/
theorem ueventFromAttrs_mapping (attrs : GoMap String) :
    (∀ u, attrs.lookup ueventAttr = some u → ∀ k v,
      ((ueventFromAttrs attrs).2.lookup k = some v ↔
        ∃ pre line post, Split u '\n' = pre ++ line :: post ∧
          lineEntry line = some (k, v) ∧
          ∀ l ∈ post, ∀ v2, lineEntry l ≠ some (k, v2))) ∧
    (attrs.lookup ueventAttr = none → ueventFromAttrs attrs = (attrs, ∅)) ∧
    (∀ line k v, lineEntry line = some (k, v) ↔
      ∃ a b, (TrimSpace line).data = a ++ '=' :: b ∧ '=' ∉ a ∧
        TrimSpace ⟨a⟩ = k ∧ TrimSpace ⟨b⟩ = v) ∧
    (∀ line, TrimSpace line = "" → lineEntry line = none) ∧
    (∀ line, '=' ∉ (TrimSpace line).data → lineEntry line = none) := by
  refine ⟨?_, ?_, ?_, ?_, ?_⟩
  · intro u hu k v
    simp only [ueventFromAttrs, hu]
    rw [ueventLines_lookup]
    constructor
    · rintro (h | ⟨_, h⟩)
      · exact h
      · simp at h
    · intro h
      exact Or.inl h
  · intro h
    simp [ueventFromAttrs, h]
  · intro line k v
    unfold lineEntry
    cases hc : cut '=' (TrimSpace line).data with
    | none =>
      simp only [reduceCtorEq, false_iff, not_exists, not_and]
      intro a b hab hna
      have := (cut_eq_some_iff '=' _ a b).2 ⟨hab, hna⟩
      rw [hc] at this
      cases this
    | some p =>
      rcases p with ⟨a0, b0⟩
      simp only [Option.some.injEq, Prod.mk.injEq]
      constructor
      · rintro ⟨h1, h2⟩
        exact ⟨a0, b0, ((cut_eq_some_iff '=' _ a0 b0).1 hc).1,
          ((cut_eq_some_iff '=' _ a0 b0).1 hc).2, h1, h2⟩
      · rintro ⟨a, b, hab, hna, h1, h2⟩
        have := (cut_eq_some_iff '=' _ a b).2 ⟨hab, hna⟩
        rw [hc] at this
        simp only [Option.some.injEq, Prod.mk.injEq] at this
        rw [this.1, this.2]
        exact ⟨h1, h2⟩
  · intro line h
    simp [lineEntry, h, cut]
  · intro line h
    simp [lineEntry, (cut_eq_none_iff _ _).2 h]

end devicemonitor

namespace executor

/-- Feeding bytes to the writer: the state after the loop of `Write`. -/
theorem feed_append (state : pipeWriter × List Bytes) (p q : Bytes) :
    (p ++ q).foldl pipeWriter.writeByte state
      = q.foldl pipeWriter.writeByte (p.foldl pipeWriter.writeByte state) :=
  List.foldl_append _ _ _ _

theorem feed_no_newline (pfx buffer : Bytes) (out : List Bytes) (l : Bytes)
    (h : (0x0A : UInt8) ∉ l) :
    l.foldl pipeWriter.writeByte ({ pfx := pfx, buffer := buffer }, out)
      = ({ pfx := pfx, buffer := buffer ++ l }, out) := by
  induction l generalizing buffer with
  | nil => simp
  | cons b bs ih =>
    simp only [List.mem_cons, not_or] at h
    have hb : b ≠ 0x0A := fun e => h.1 e.symm
    rw [List.foldl_cons, pipeWriter.writeByte, if_neg hb, ih _ h.2]
    simp

theorem feed_lines (pfx : Bytes) (lines : List Bytes) (rest : Bytes)
    (hlines : ∀ l ∈ lines, (0x0A : UInt8) ∉ l) (hrest : (0x0A : UInt8) ∉ rest) :
    ∀ out : List Bytes,
      ((lines.map (fun l => l ++ [0x0A])).flatten ++ rest).foldl pipeWriter.writeByte
          ({ pfx := pfx, buffer := [] }, out)
        = ({ pfx := pfx, buffer := rest },
            out ++ lines.map (fun l => pfx ++ [0x20] ++ l)) := by
  induction lines with
  | nil =>
    intro out
    simpa using feed_no_newline pfx [] out rest hrest
  | cons l ls ih =>
    intro out
    have hl : (0x0A : UInt8) ∉ l := hlines l (List.mem_cons_self _ _)
    have hls : ∀ x ∈ ls, (0x0A : UInt8) ∉ x := fun x hx => hlines x (List.mem_cons_of_mem _ hx)
    simp only [List.map_cons, List.flatten_cons, List.append_assoc]
    rw [feed_append, feed_no_newline pfx [] out l hl, feed_append]
    simp only [List.nil_append, List.foldl_cons, List.foldl_nil, pipeWriter.writeByte,
      if_true]
    rw [ih hls]
    simp [pipeWriter.message]

theorem writeAll_eq (w : pipeWriter) (chunks : List Bytes) :
    ∀ out : List Bytes,
      ((w.writeAll chunks).1, out ++ (w.writeAll chunks).2)
        = chunks.flatten.foldl pipeWriter.writeByte (w, out) := by
  induction chunks generalizing w with
  | nil => intro out; simp [pipeWriter.writeAll]
  | cons p rest ih =>
    intro out
    have hout : ∀ (q : Bytes) (state : pipeWriter × List Bytes) (extra : List Bytes),
        q.foldl pipeWriter.writeByte (state.1, extra ++ state.2)
          = ((q.foldl pipeWriter.writeByte state).1,
              extra ++ (q.foldl pipeWriter.writeByte state).2) := by
      intro q
      induction q with
      | nil => intro state extra; rfl
      | cons b bs ihq =>
        intro state extra
        rw [List.foldl_cons, List.foldl_cons]
        by_cases hb : b = 0x0A
        · have := ihq (pipeWriter.writeByte state b) extra
          simp only [pipeWriter.writeByte, hb, if_true, List.append_assoc] at this ⊢
          exact this
        · have := ihq (pipeWriter.writeByte state b) extra
          simp only [pipeWriter.writeByte, hb, if_false] at this ⊢
          exact this
    simp only [pipeWriter.writeAll, pipeWriter.Write, List.flatten_cons]
    rw [feed_append, ← List.append_assoc, ih]
    congr 1
    have := hout p (w, []) out
    simpa using this.symm

theorem session_eq (pfx : Bytes) (chunks : List Bytes) :
    pipeWriter.session pfx chunks
      = (chunks.flatten.foldl pipeWriter.writeByte ({ pfx := pfx, buffer := [] }, [])).2
        ++ (chunks.flatten.foldl pipeWriter.writeByte
              ({ pfx := pfx, buffer := [] }, [])).1.Flush := by
  have h := writeAll_eq { pfx := pfx, buffer := [] } chunks []
  simp only [List.nil_append] at h
  unfold pipeWriter.session
  rw [← h]

/-- Every byte string is a sequence of newline-terminated lines followed by an
unterminated remainder. -/
theorem exists_lines (B : Bytes) :
    ∃ (lines : List Bytes) (rest : Bytes),
      B = (lines.map (fun l => l ++ [0x0A])).flatten ++ rest ∧
      (∀ l ∈ lines, (0x0A : UInt8) ∉ l) ∧ (0x0A : UInt8) ∉ rest := by
  induction B with
  | nil => exact ⟨[], [], rfl, by simp, by simp⟩
  | cons b bs ih =>
    obtain ⟨lines, rest, hB, hlines, hrest⟩ := ih
    by_cases hb : b = 0x0A
    · exact ⟨[] :: lines, rest, by simp [hB, hb], by
        intro l hl
        rcases List.mem_cons.1 hl with rfl | hl
        · simp
        · exact hlines l hl, hrest⟩
    · cases lines with
      | nil =>
        refine ⟨[], b :: rest, by simpa using hB, by simp, ?_⟩
        simp only [List.mem_cons, not_or]
        exact ⟨fun e => hb e.symm, hrest⟩
      | cons l ls =>
        refine ⟨(b :: l) :: ls, rest, by simp [hB], ?_, hrest⟩
        intro x hx
        rcases List.mem_cons.1 hx with rfl | hx
        · simp only [List.mem_cons, not_or]
          exact ⟨fun e => hb e.symm, hlines l (List.mem_cons_self _ _)⟩
        · exact hlines x (List.mem_cons_of_mem _ hx)

/-- **C18.** The messages of a fresh `pipeWriter` over chunks and one final
`Flush` depend on the concatenation `B` of the chunks only. `B` is, in one way,
a sequence of newline-terminated lines followed by a remainder without newline;
the messages are one per line in order, prefix, a blank and the line, followed
by one for the remainder exactly when it is non-empty. Every `Write(p)` returns
`len(p)` and a nil error. -/
theorem session_messages (pfx : Bytes) (chunks : List Bytes) :
    (∃ (lines : List Bytes) (rest : Bytes),
      chunks.flatten = (lines.map (fun l => l ++ [0x0A])).flatten ++ rest ∧
      (∀ l ∈ lines, (0x0A : UInt8) ∉ l) ∧ (0x0A : UInt8) ∉ rest) ∧
    (∀ (lines : List Bytes) (rest : Bytes),
      chunks.flatten = (lines.map (fun l => l ++ [0x0A])).flatten ++ rest →
      (∀ l ∈ lines, (0x0A : UInt8) ∉ l) → (0x0A : UInt8) ∉ rest →
      pipeWriter.session pfx chunks
        = lines.map (fun l => pfx ++ [0x20] ++ l)
          ++ (if rest = [] then [] else [pfx ++ [0x20] ++ rest])) ∧
    (∀ chunks2 : List Bytes, chunks2.flatten = chunks.flatten →
      pipeWriter.session pfx chunks2 = pipeWriter.session pfx chunks) ∧
    (∀ (w : pipeWriter) (p : Bytes), (w.Write p).2.2 = (p.length, none)) ∧
    pipeWriter.session [0x4F] [[0x61, 0x0A, 0x62], [0x63, 0x0A, 0x0A], [0x64]]
      = [[0x4F, 0x20, 0x61], [0x4F, 0x20, 0x62, 0x63], [0x4F, 0x20], [0x4F, 0x20, 0x64]] := by
  refine ⟨exists_lines _, ?_, ?_, fun _ _ => rfl, by decide⟩
  · intro lines rest hB hlines hrest
    rw [session_eq, hB, feed_lines pfx lines rest hlines hrest []]
    simp only [List.nil_append, pipeWriter.Flush, pipeWriter.message]
    cases rest with
    | nil => simp
    | cons b bs => simp
  · intro chunks2 h
    rw [session_eq, session_eq, h]

end executor
